import Mathlib

/-!
Verification of the `pr_entry` plugin (conversational PR-editing bot for
TOML course-review documents).

The development shallowly embeds the code of
`src/plugins/pr_entry/handlers.py` and `src/plugins/pr_entry/moderation.py`:

* Python string primitives (`strip`, `rstrip`, `in`, `str.replace(a, b, 1)`,
  `"\r\n" -> "\n"` normalization) are modelled character-exactly over
  ASCII whitespace.
* The parsed TOML document is modelled as the tree of shapes the handlers
  actually read (description, sections/items, lecturers/reviews and the
  multi-project courses nesting); the style-preserving text round-trip of
  the tomlkit library is modelled separately for the serialization claims.
* The per-user session (`Pending` dataclass plus the `_PENDING` store) is
  modelled as an explicit record, and each message-handler branch becomes a
  pure transition function `Pending -> inputs -> Option Pending × String`
  (the `Option Pending` being the value stored back for the session key,
  `none` meaning the record was popped; the `String` being the reply).
  Results of awaited external calls (course lookup, dry-run patch,
  moderation, PR ensure) are passed in as arguments.
-/

/-! ## Python string primitives -/

/-- Python `str` whitespace (the ASCII part, which is what the documents
and replies here use): matches `str.strip()` / `str.rstrip()` behaviour. -/
def pyIsSpace (c : Char) : Bool :=
  c = ' ' || c = '\t' || c = '\n' || c = '\r' || c = '\x0b' || c = '\x0c'

/-- `str.strip()` on a character list. -/
def pyStripList (l : List Char) : List Char :=
  ((l.dropWhile pyIsSpace).reverse.dropWhile pyIsSpace).reverse

/-- Python `s.strip()`. -/
def pyStrip (s : String) : String :=
  ⟨pyStripList s.data⟩

/-- Python `s.rstrip()`. -/
def pyRstrip (s : String) : String :=
  ⟨(s.data.reverse.dropWhile pyIsSpace).reverse⟩

/-- Leftmost index at which `pat` occurs in `s` (Python `s.find(pat)`,
restricted to found/not-found). -/
def findSubList (s pat : List Char) : Option Nat :=
  if pat.isPrefixOf s then some 0
  else
    match s with
    | [] => none
    | _ :: t => (findSubList t pat).map (· + 1)

/-- Python `pat in s` (substring containment). -/
def pyContains (s pat : String) : Bool :=
  (findSubList s.data pat.data).isSome

/-- Python `s.replace(old, new, 1)`: replace the leftmost occurrence only. -/
def pyReplaceFirstList (s old new : List Char) : List Char :=
  match findSubList s old with
  | none => s
  | some i => s.take i ++ new ++ s.drop (i + old.length)

/-- Python `s.replace(old, new, 1)` on strings. -/
def pyReplaceFirst (s old new : String) : String :=
  ⟨pyReplaceFirstList s.data old.data new.data⟩

/-- Replace every `"\r\n"` by `"\n"` (Python `s.replace("\r\n", "\n")`,
left-to-right, non-overlapping). -/
def normNewlines : List Char → List Char
  | [] => []
  | '\r' :: '\n' :: rest => '\n' :: normNewlines rest
  | c :: rest => c :: normNewlines rest

/-- `_norm_text` from handlers.py: `(s or "").strip().replace("\r\n", "\n")`. -/
def normText (s : String) : String :=
  ⟨normNewlines (pyStripList s.data)⟩

/-- Python `s[:200]` guarded truncation used on moderation reasons and
previews: first `n` characters. -/
def pyTake (n : Nat) (s : String) : String :=
  ⟨s.data.take n⟩

/-- Python `s.lower()` on the ASCII letters (the reply keywords compared
with it are ASCII or Chinese, on which `lower` is the identity). -/
def pyLower (s : String) : String :=
  ⟨s.data.map Char.toLower⟩

theorem pyContains_nil_left {pat : String} (h : pat ≠ "") :
    pyContains "" pat = false := by
  unfold pyContains findSubList
  have hpat : pat.data ≠ [] := by
    intro hd
    exact h (by cases pat with | mk d => simpa using congrArg String.mk hd)
  cases hp : pat.data with
  | nil => exact absurd hp hpat
  | cons c cs => simp [List.isPrefixOf, hp]

/-! ## Attribution (`_append_author_field`) -/

/-- The `{name, link, date}` inline table written for an attribution. -/
structure Author where
  name : String
  link : String
  date : String
deriving DecidableEq, Repr

/-- The value found at key `author` of an item/review table:
absent, a single inline table, an array of entries, or some other
TOML value (the code's final fallback case). -/
inductive AuthorField where
  | missing
  | single (a : Author)
  | many (l : List Author)
  | other
deriving DecidableEq, Repr

/-- The inline table `_append_author_field` builds from the `author` dict:
each of name/link/date is `str(...).strip()`-ed. -/
def mkAuthorEntry (a : Author) : Author :=
  ⟨pyStrip a.name, pyStrip a.link, pyStrip a.date⟩

/-- `_append_author_field` from handlers.py: missing -> inline table,
inline table -> two-element array, array -> append, anything else ->
overwrite with the new inline table. -/
def appendAuthorField (existing : AuthorField) (a : Author) : AuthorField :=
  let t := mkAuthorEntry a
  match existing with
  | .missing => .single t
  | .many l => .many (l ++ [t])
  | .single b => .many [b, t]
  | .other => .single t

/-- The attribution entries carried by an `author` field (a non-table,
non-array value carries none). -/
def AuthorField.entries : AuthorField → List Author
  | .missing => []
  | .single a => [a]
  | .many l => l
  | .other => []

/-- Apply an optional attribution request (the `if author:` guard around
`_append_author_field`). -/
def appendAuthorOpt (author : Option Author) (existing : AuthorField) : AuthorField :=
  match author with
  | none => existing
  | some a => appendAuthorField existing a

/-! ## Document model

The tree of TOML shapes the handlers read (via `_doc_table`, `_aot`,
`_safe_str`): a top-level `description`, `lecturers[].{name, reviews[]}`,
`sections[].{title, items[]}`, and — for the multi-project schema —
`courses[].{name, teachers[], sections[]}`.  Absent keys are modelled by
`""` / `[]`, which lands in the same branch as Python's falsiness checks
(`if not lecturers: ...` treats a missing and an empty array-of-tables
alike).  `repoType` models `getattr(doc, "repo_type", "")`, the value the
walkers compare against `"multi-project"`. -/

/-- A section item or a teacher review: free text plus optional attribution. -/
structure ContentItem where
  content : String
  author : AuthorField := .missing
deriving DecidableEq, Repr

/-- A `lecturers`/`teachers` array-of-tables element. -/
structure TeacherTbl where
  name : String
  reviews : List ContentItem
deriving DecidableEq, Repr

/-- A `sections` array-of-tables element. -/
structure SectionTbl where
  title : String
  items : List ContentItem
deriving DecidableEq, Repr

/-- A `courses` array-of-tables element of a multi-project document. -/
structure CourseTbl where
  name : String
  teachers : List TeacherTbl
  sections : List SectionTbl
deriving DecidableEq, Repr

/-- The parsed document as consumed by the locator and patch builder. -/
structure Doc where
  repoType : String
  description : String
  lecturers : List TeacherTbl
  sections : List SectionTbl
  courses : List CourseTbl
deriving DecidableEq, Repr

/-! ## Paragraph locator (`_find_paragraph_candidates`) -/

/-- `_preview_line`: first line of the stripped content, capped at 60
characters with an ellipsis. -/
def previewLine (content : String) : String :=
  let pv := pyStrip ⟨(pyStrip content).data.takeWhile (· ≠ '\n')⟩
  if pv.data.length > 60 then pyTake 59 pv ++ "…" else pv

/-- The candidate dict shapes emitted by the locator (`type` plus its
identifying keys). -/
inductive Ref where
  | description
  | lecturerReview (lecturer : String) (reviewIndex : Nat)
  | sectionItem (sectionTitle : String) (index : Nat)
  | courseTeacherReview (courseIndex : Nat) (courseName : String)
      (teacher : String) (reviewIndex : Nat)
  | courseSectionItem (courseIndex : Nat) (courseName : String)
      (sectionTitle : String) (index : Nat)
deriving DecidableEq, Repr

/-- A locator candidate: the address plus its one-line preview. -/
structure Candidate where
  ref : Ref
  preview : String
deriving DecidableEq, Repr

/-- `_safe_str(x.get("name")).strip() or default`. -/
def nameOrDefault (s dflt : String) : String :=
  if pyStrip s = "" then dflt else pyStrip s

/-- `_find_paragraph_candidates` from handlers.py, loop for loop:
description, then `lecturers[].reviews`, then `sections[].items`, then —
only when `repo_type == "multi-project"` — for each course its
`teachers[].reviews` followed by its `sections[].items`. -/
def findParagraphCandidates (doc : Doc) (snippet : String) : List Candidate :=
  let s := normText snippet
  if s = "" then []
  else
    (let desc := normText doc.description
     if desc ≠ "" && pyContains desc s then
       [⟨.description, previewLine desc⟩]
     else []) ++
    (doc.lecturers.flatMap fun lec =>
      lec.reviews.enum.flatMap fun p =>
        let rc := normText p.2.content
        if rc ≠ "" && pyContains rc s then
          [⟨.lecturerReview (nameOrDefault lec.name "(未命名教师)") p.1, previewLine rc⟩]
        else []) ++
    (doc.sections.flatMap fun sec =>
      sec.items.enum.flatMap fun p =>
        let cc := normText p.2.content
        if cc ≠ "" && pyContains cc s then
          [⟨.sectionItem (nameOrDefault sec.title "(未命名章节)") p.1, previewLine cc⟩]
        else []) ++
    (if doc.repoType = "multi-project" then
      doc.courses.enum.flatMap fun cp =>
        let cname := nameOrDefault cp.2.name ("course#" ++ toString (cp.1 + 1))
        (cp.2.teachers.flatMap fun t =>
          t.reviews.enum.flatMap fun p =>
            let rc := normText p.2.content
            if rc ≠ "" && pyContains rc s then
              [⟨.courseTeacherReview cp.1 cname (nameOrDefault t.name "(未命名教师)") p.1,
                 previewLine rc⟩]
            else []) ++
        (cp.2.sections.flatMap fun sec =>
          sec.items.enum.flatMap fun p =>
            let cc := normText p.2.content
            if cc ≠ "" && pyContains cc s then
              [⟨.courseSectionItem cp.1 cname (nameOrDefault sec.title "(未命名章节)") p.1,
                 previewLine cc⟩]
            else [])
     else [])

/-- All free-text fields of a document, paired with their normalized
texts, in the exact order the locator's loops visit them. -/
def Doc.allFields (doc : Doc) : List (Ref × String) :=
  [(Ref.description, normText doc.description)] ++
  (doc.lecturers.flatMap fun lec =>
    lec.reviews.enum.map fun p =>
      (Ref.lecturerReview (nameOrDefault lec.name "(未命名教师)") p.1, normText p.2.content)) ++
  (doc.sections.flatMap fun sec =>
    sec.items.enum.map fun p =>
      (Ref.sectionItem (nameOrDefault sec.title "(未命名章节)") p.1, normText p.2.content)) ++
  (if doc.repoType = "multi-project" then
    doc.courses.enum.flatMap fun cp =>
      let cname := nameOrDefault cp.2.name ("course#" ++ toString (cp.1 + 1))
      (cp.2.teachers.flatMap fun t =>
        t.reviews.enum.map fun p =>
          (Ref.courseTeacherReview cp.1 cname (nameOrDefault t.name "(未命名教师)") p.1,
           normText p.2.content)) ++
      (cp.2.sections.flatMap fun sec =>
        sec.items.enum.map fun p =>
          (Ref.courseSectionItem cp.1 cname (nameOrDefault sec.title "(未命名章节)") p.1,
           normText p.2.content))
   else [])

/-- The free-text fields in the order the specification's locator section
claims they are visited: description, then sections' items, then
lecturers' reviews, then per sub-course its sections followed by its
teachers.  This definition follows the claim's wording and exists only to
be compared against `Doc.allFields`. -/
def Doc.claimedOrderFields (doc : Doc) : List (Ref × String) :=
  [(Ref.description, normText doc.description)] ++
  (doc.sections.flatMap fun sec =>
    sec.items.enum.map fun p =>
      (Ref.sectionItem (nameOrDefault sec.title "(未命名章节)") p.1, normText p.2.content)) ++
  (doc.lecturers.flatMap fun lec =>
    lec.reviews.enum.map fun p =>
      (Ref.lecturerReview (nameOrDefault lec.name "(未命名教师)") p.1, normText p.2.content)) ++
  (if doc.repoType = "multi-project" then
    doc.courses.enum.flatMap fun cp =>
      let cname := nameOrDefault cp.2.name ("course#" ++ toString (cp.1 + 1))
      (cp.2.sections.flatMap fun sec =>
        sec.items.enum.map fun p =>
          (Ref.courseSectionItem cp.1 cname (nameOrDefault sec.title "(未命名章节)") p.1,
           normText p.2.content)) ++
      (cp.2.teachers.flatMap fun t =>
        t.reviews.enum.map fun p =>
          (Ref.courseTeacherReview cp.1 cname (nameOrDefault t.name "(未命名教师)") p.1,
           normText p.2.content))
   else [])

/-- Candidate list predicted by the claimed walking order (substring
filter in `Doc.claimedOrderFields` order). -/
def claimedOrderCandidates (doc : Doc) (snippet : String) : List Candidate :=
  let s := normText snippet
  if s = "" then []
  else
    (doc.claimedOrderFields.filter fun p => pyContains p.2 s).map fun p =>
      ⟨p.1, previewLine p.2⟩

/-! ### Locator characterization -/

theorem contains_and_ne_empty {s : String} (hs : s ≠ "") (t : String) :
    (decide (t ≠ "") && pyContains t s) = pyContains t s := by
  by_cases ht : t = ""
  · subst ht
    simp [pyContains_nil_left hs]
  · simp [ht]

theorem filter_flatMap_comm (l : List β) (h : β → List α) (q : α → Bool) :
    (l.flatMap h).filter q = l.flatMap fun x => (h x).filter q := by
  induction l with
  | nil => rfl
  | cons x xs ih => simp [List.flatMap_cons, List.filter_append, ih]

theorem map_flatMap_comm (l : List β) (h : β → List α) (g : α → γ) :
    (l.flatMap h).map g = l.flatMap fun x => (h x).map g := by
  induction l with
  | nil => rfl
  | cons x xs ih => simp [List.flatMap_cons, ih]

theorem flatMap_if_singleton_simple {s : String} (l : List α)
    (f : α → Ref × String) :
    (l.flatMap fun x =>
        if pyContains (f x).2 s then
          [(⟨(f x).1, previewLine (f x).2⟩ : Candidate)]
        else []) =
      ((l.map f).filter fun p => pyContains p.2 s).map fun p =>
        ⟨p.1, previewLine p.2⟩ := by
  induction l with
  | nil => rfl
  | cons x xs ih =>
    simp only [List.flatMap_cons, List.map_cons, List.filter_cons]
    by_cases hc : pyContains (f x).2 s = true
    · simp [hc, ih]
    · simp [hc, ih]

theorem flatMap_if_singleton {s : String} (hs : s ≠ "") (l : List α)
    (f : α → Ref × String) :
    (l.flatMap fun x =>
        if (f x).2 ≠ "" && pyContains (f x).2 s then
          [(⟨(f x).1, previewLine (f x).2⟩ : Candidate)]
        else []) =
      ((l.map f).filter fun p => pyContains p.2 s).map fun p =>
        ⟨p.1, previewLine p.2⟩ := by
  have h1 : (fun x =>
        if (f x).2 ≠ "" && pyContains (f x).2 s then
          [(⟨(f x).1, previewLine (f x).2⟩ : Candidate)]
        else []) = (fun x =>
        if pyContains (f x).2 s then
          [(⟨(f x).1, previewLine (f x).2⟩ : Candidate)]
        else []) := by
    funext x
    rw [contains_and_ne_empty hs]
  rw [show l.flatMap (fun x =>
        if (f x).2 ≠ "" && pyContains (f x).2 s then
          [(⟨(f x).1, previewLine (f x).2⟩ : Candidate)]
        else []) = l.flatMap (fun x =>
        if pyContains (f x).2 s then
          [(⟨(f x).1, previewLine (f x).2⟩ : Candidate)]
        else []) from congrArg _ h1]
  exact flatMap_if_singleton_simple l f

/-- The locator emits exactly the fields whose normalized text contains
the normalized snippet, in the order of `Doc.allFields` (description,
then lecturers' reviews, then sections' items, then per course teachers'
reviews followed by sections' items). -/
theorem findParagraphCandidates_eq_filter (doc : Doc) (s : String)
    (hs : normText s ≠ "") :
    findParagraphCandidates doc s =
      (doc.allFields.filter fun p => pyContains p.2 (normText s)).map fun p =>
        ⟨p.1, previewLine p.2⟩ := by
  unfold findParagraphCandidates Doc.allFields
  rw [if_neg hs]
  dsimp only
  rw [List.filter_append, List.filter_append, List.filter_append,
    List.map_append, List.map_append, List.map_append]
  congr 1
  · congr 1
    · congr 1
      · by_cases hd : pyContains (normText doc.description) (normText s) = true
        · rw [contains_and_ne_empty hs, if_pos hd]
          simp [List.filter_cons, hd]
        · rw [contains_and_ne_empty hs, if_neg hd]
          simp only [Bool.not_eq_true] at hd
          simp [List.filter_cons, hd]
      · rw [filter_flatMap_comm, map_flatMap_comm]
        refine congrArg _ (funext fun lec => ?_)
        exact flatMap_if_singleton hs lec.reviews.enum fun p =>
          (Ref.lecturerReview (nameOrDefault lec.name "(未命名教师)") p.1,
            normText p.2.content)
    · rw [filter_flatMap_comm, map_flatMap_comm]
      refine congrArg _ (funext fun sec => ?_)
      exact flatMap_if_singleton hs sec.items.enum fun p =>
        (Ref.sectionItem (nameOrDefault sec.title "(未命名章节)") p.1,
          normText p.2.content)
  · by_cases hm : doc.repoType = "multi-project"
    · rw [if_pos hm, if_pos hm, filter_flatMap_comm, map_flatMap_comm]
      refine congrArg _ (funext fun cp => ?_)
      dsimp only
      rw [List.filter_append, List.map_append]
      congr 1
      · rw [filter_flatMap_comm, map_flatMap_comm]
        refine congrArg _ (funext fun t => ?_)
        exact flatMap_if_singleton hs t.reviews.enum fun p =>
          (Ref.courseTeacherReview cp.1
            (nameOrDefault cp.2.name ("course#" ++ toString (cp.1 + 1)))
            (nameOrDefault t.name "(未命名教师)") p.1,
            normText p.2.content)
      · rw [filter_flatMap_comm, map_flatMap_comm]
        refine congrArg _ (funext fun sec => ?_)
        exact flatMap_if_singleton hs sec.items.enum fun p =>
          (Ref.courseSectionItem cp.1
            (nameOrDefault cp.2.name ("course#" ++ toString (cp.1 + 1)))
            (nameOrDefault sec.title "(未命名章节)") p.1,
            normText p.2.content)
    · rw [if_neg hm, if_neg hm]
      rfl

/-- A small normal-schema document with one lecturer review and one
section item that both contain the same search string. -/
def exampleDocOrder : Doc :=
  { repoType := "normal"
    description := ""
    lecturers := [⟨"张老师", [⟨"abcdefghij review", .missing⟩]⟩]
    sections := [⟨"考试", [⟨"item abcdefghij", .missing⟩]⟩]
    courses := [] }

/-- C5 counterexample: the locator visits lecturers' reviews before
sections' items (and, per course, teachers before sections), so on a
document where a section item and a lecturer review both match, the
emitted order differs from the order the claim states (description,
sections' items, then lecturer reviews). -/
theorem locator_order_counterexample :
    findParagraphCandidates exampleDocOrder "abcdefghij" =
      [⟨.lecturerReview "张老师" 0, "abcdefghij review"⟩,
       ⟨.sectionItem "考试" 0, "item abcdefghij"⟩] ∧
    claimedOrderCandidates exampleDocOrder "abcdefghij" =
      [⟨.sectionItem "考试" 0, "item abcdefghij"⟩,
       ⟨.lecturerReview "张老师" 0, "abcdefghij review"⟩] ∧
    findParagraphCandidates exampleDocOrder "abcdefghij" ≠
      claimedOrderCandidates exampleDocOrder "abcdefghij" := by
  decide

/-- C5 (amended): the locator walks every free-text field applying a
case-sensitive substring test of the normalized search string against
the normalized field text, emitting candidates in its walk order —
description first; then each lecturer's reviews in document order; then
each section's items in document order; then, for multi-project
documents, each subdocument's teachers' reviews followed by its
sections' items, in subdocument order. -/
theorem locator_walk_order_characterization (doc : Doc) (s : String)
    (hs : normText s ≠ "") :
    findParagraphCandidates doc s =
      (doc.allFields.filter fun p => pyContains p.2 (normText s)).map fun p =>
        ⟨p.1, previewLine p.2⟩ :=
  findParagraphCandidates_eq_filter doc s hs

theorem locator_walk_order_characterization_witness :
    normText "abcdefghij" ≠ "" ∧
    findParagraphCandidates exampleDocOrder "abcdefghij" =
      ((exampleDocOrder.allFields.filter fun p =>
          pyContains p.2 (normText "abcdefghij")).map fun p =>
        ⟨p.1, previewLine p.2⟩) :=
  ⟨by decide,
    locator_walk_order_characterization exampleDocOrder "abcdefghij" (by decide)⟩

/-- C6: the locator is a pure function of the document and the search
string (repeated calls agree), and when the normalized search string is
non-empty and occurs in exactly one field's normalized text, the locator
returns exactly one candidate, addressing that field. -/
theorem locator_unique_match_single_candidate (doc : Doc) (s : String)
    (r : Ref) (txt : String) (hs : normText s ≠ "")
    (huniq : doc.allFields.filter (fun p => pyContains p.2 (normText s)) =
      [(r, txt)]) :
    (∀ out1 out2 : List Candidate,
        out1 = findParagraphCandidates doc s →
        out2 = findParagraphCandidates doc s → out1 = out2) ∧
    findParagraphCandidates doc s = [⟨r, previewLine txt⟩] := by
  refine ⟨fun out1 out2 h1 h2 => h1.trans h2.symm, ?_⟩
  rw [findParagraphCandidates_eq_filter doc s hs, huniq]
  rfl

theorem locator_unique_match_single_candidate_witness :
    (normText "item abcd" ≠ "" ∧
      exampleDocOrder.allFields.filter
          (fun p => pyContains p.2 (normText "item abcd")) =
        [(Ref.sectionItem "考试" 0, "item abcdefghij")]) ∧
    findParagraphCandidates exampleDocOrder "item abcd" =
      [⟨Ref.sectionItem "考试" 0, previewLine "item abcdefghij"⟩] :=
  ⟨⟨by decide, by decide⟩,
    (locator_unique_match_single_candidate exampleDocOrder "item abcd"
      (Ref.sectionItem "考试" 0) "item abcdefghij" (by decide) (by decide)).2⟩

/-- C4: attribution append is a monotonic merge — no attribution becomes a
single entry, a single entry becomes a two-element list whose first entry
is the old one unchanged, a list is appended to at the end, and in every
case the sequence of existing attribution entries is preserved with the
new entry appended after it. -/
theorem append_author_monotone :
    (∀ a : Author, appendAuthorField .missing a = .single (mkAuthorEntry a)) ∧
    (∀ b a : Author,
        appendAuthorField (.single b) a = .many [b, mkAuthorEntry a]) ∧
    (∀ (l : List Author) (a : Author),
        appendAuthorField (.many l) a = .many (l ++ [mkAuthorEntry a])) ∧
    (∀ (f : AuthorField) (a : Author),
        (appendAuthorField f a).entries = f.entries ++ [mkAuthorEntry a]) := by
  refine ⟨fun a => rfl, fun b a => rfl, fun l a => rfl, fun f a => ?_⟩
  cases f <;> rfl

/-! ## Patch builder (`_patch_toml_by_target`)

`_patch_toml_by_target` receives the snapshot text, a candidate dict as
the target, the old and new paragraphs and the optional author.  It is
modelled over `Doc`; exceptions become `Except.error` carrying the
`ValueError` message. -/

/-- The `for ... if name != wanted: continue` pattern of the patcher: act
on the first element satisfying `p`, propagating the body's exception;
raise `err` when the loop falls through. -/
def patchFirst (p : α → Bool) (f : α → Except String α) (err : String) :
    List α → Except String (List α)
  | [] => .error err
  | x :: xs =>
    if p x then (f x).map (· :: xs)
    else (patchFirst p f err xs).map (x :: ·)

/-- Replace a list's first element satisfying `p` using `g` (the pure
effect `patchFirst` has on the list when its body succeeds). -/
def setFirst (p : α → Bool) (g : α → α) : List α → List α
  | [] => []
  | x :: xs => if p x then g x :: xs else x :: setFirst p g xs

/-- The body shared by the review/item branches of the patcher: bounds
check, re-validate that the normalized current content still contains the
normalized old paragraph, then replace the first occurrence and append
the optional attribution.  `errNF` is the branch's content-drift message
(`errIdx` its index-out-of-range message). -/
def patchContentAt (sOld sNew : String) (author : Option Author)
    (errIdx errNF : String) (rvs : List ContentItem) (ridx : Nat) :
    Except String (List ContentItem) :=
  match rvs.get? ridx with
  | none => .error errIdx
  | some rv =>
    let rc := normText rv.content
    if pyContains rc sOld then
      .ok (rvs.set ridx
        { content := pyReplaceFirst rc sOld sNew
          author := appendAuthorOpt author rv.author })
    else .error errNF

/-- `_patch_toml_by_target` from handlers.py.  The supported target types
are `description`, `lecturer_review`, `course_teacher_review` and
`course_section_item`; a top-level `section_item` target reaches the
function's final `unsupported target type` raise (that shape is patched
through the remote `submit_ops` path instead). -/
def patchTomlByTarget (doc : Doc) (target : Ref) (oldParagraph newParagraph : String)
    (author : Option Author) : Except String Doc :=
  let sOld := normText oldParagraph
  let sNew := normText newParagraph
  if sOld = "" then .error "old_paragraph is empty"
  else
    match target with
    | .description =>
      let desc := normText doc.description
      if pyContains desc sOld then
        .ok { doc with description := pyReplaceFirst desc sOld sNew }
      else .error "原段落未在 description 中找到（内容已变化？）"
    | .lecturerReview lname ridx =>
      if doc.lecturers = [] then .error "lecturers 不存在"
      else
        (patchFirst (fun lec => pyStrip lec.name = pyStrip lname)
          (fun lec =>
            (patchContentAt sOld sNew author "reviews 索引越界"
              "原段落未在该教师评价中找到（内容已变化？）" lec.reviews ridx).map
              fun rvs => { lec with reviews := rvs })
          "未找到指定 lecturer" doc.lecturers).map
          fun ls => { doc with lecturers := ls }
    | .courseTeacherReview cidx _cname tname ridx =>
      if doc.courses = [] then .error "courses 不存在"
      else
        match doc.courses.get? cidx with
        | none => .error "course_index 越界"
        | some c =>
          if c.teachers = [] then .error "teachers 不存在"
          else
            (patchFirst (fun t => pyStrip t.name = pyStrip tname)
              (fun t =>
                (patchContentAt sOld sNew author "reviews 索引越界"
                  "原段落未在该教师评价中找到（内容已变化？）" t.reviews ridx).map
                  fun rvs => { t with reviews := rvs })
              "未找到指定 teacher" c.teachers).map
              fun ts => { doc with courses := doc.courses.set cidx { c with teachers := ts } }
    | .courseSectionItem cidx _cname stitle iidx =>
      if doc.courses = [] then .error "courses 不存在"
      else
        match doc.courses.get? cidx with
        | none => .error "course_index 越界"
        | some c =>
          if c.sections = [] then .error "sections 不存在"
          else
            (patchFirst (fun sec => pyStrip sec.title = pyStrip stitle)
              (fun sec =>
                (patchContentAt sOld sNew author "items 索引越界"
                  "原段落未在该条目中找到（内容已变化？）" sec.items iidx).map
                  fun its => { sec with items := its })
              "未找到指定 section" c.sections).map
              fun ss => { doc with courses := doc.courses.set cidx { c with sections := ss } }
    | .sectionItem _ _ => .error "unsupported target type: section_item"

/-- Resolve a target the way the patcher does: first stripped-name match
for lecturers/teachers/section titles, plain indexing for courses and
review/item indices.  Returns the raw content of the addressed field. -/
def Doc.fieldContent (doc : Doc) : Ref → Option String
  | .description => some doc.description
  | .lecturerReview n i =>
    (doc.lecturers.find? fun l => pyStrip l.name = pyStrip n).bind fun l =>
      (l.reviews.get? i).map (·.content)
  | .sectionItem t i =>
    (doc.sections.find? fun s => pyStrip s.title = pyStrip t).bind fun s =>
      (s.items.get? i).map (·.content)
  | .courseTeacherReview ci _ tn ri =>
    (doc.courses.get? ci).bind fun c =>
      (c.teachers.find? fun t => pyStrip t.name = pyStrip tn).bind fun t =>
        (t.reviews.get? ri).map (·.content)
  | .courseSectionItem ci _ st ii =>
    (doc.courses.get? ci).bind fun c =>
      (c.sections.find? fun s => pyStrip s.title = pyStrip st).bind fun s =>
        (s.items.get? ii).map (·.content)

/-- The attribution collection of the addressed field (a description has
none). -/
def Doc.fieldAuthor (doc : Doc) : Ref → Option AuthorField
  | .description => none
  | .lecturerReview n i =>
    (doc.lecturers.find? fun l => pyStrip l.name = pyStrip n).bind fun l =>
      (l.reviews.get? i).map (·.author)
  | .sectionItem t i =>
    (doc.sections.find? fun s => pyStrip s.title = pyStrip t).bind fun s =>
      (s.items.get? i).map (·.author)
  | .courseTeacherReview ci _ tn ri =>
    (doc.courses.get? ci).bind fun c =>
      (c.teachers.find? fun t => pyStrip t.name = pyStrip tn).bind fun t =>
        (t.reviews.get? ri).map (·.author)
  | .courseSectionItem ci _ st ii =>
    (doc.courses.get? ci).bind fun c =>
      (c.sections.find? fun s => pyStrip s.title = pyStrip st).bind fun s =>
        (s.items.get? ii).map (·.author)

/-- The canonical address of the field a `Ref` denotes: names are
compared stripped, and the patcher resolves course targets by index
only, ignoring the carried course name.  Two `Ref`s address the same
field exactly when their canonical forms agree. -/
def refCanon : Ref → Ref
  | .description => .description
  | .lecturerReview n i => .lecturerReview (pyStrip n) i
  | .sectionItem t i => .sectionItem (pyStrip t) i
  | .courseTeacherReview ci _ tn ri => .courseTeacherReview ci "" (pyStrip tn) ri
  | .courseSectionItem ci _ st ii => .courseSectionItem ci "" (pyStrip st) ii

/-- The document with every free-text field and attribution erased: its
skeleton (titles, names, list lengths, schema type). -/
def Doc.skeleton (doc : Doc) : Doc :=
  { repoType := doc.repoType
    description := ""
    lecturers := doc.lecturers.map fun l =>
      { l with reviews := l.reviews.map fun _ => ⟨"", .missing⟩ }
    sections := doc.sections.map fun s =>
      { s with items := s.items.map fun _ => ⟨"", .missing⟩ }
    courses := doc.courses.map fun c =>
      { c with
        teachers := c.teachers.map fun t =>
          { t with reviews := t.reviews.map fun _ => ⟨"", .missing⟩ }
        sections := c.sections.map fun s =>
          { s with items := s.items.map fun _ => ⟨"", .missing⟩ } } }

/-! ### List-level lemmas for the patch proofs -/

theorem except_map_ok {e : Except String α} {g : α → β} {b : β} :
    e.map g = .ok b ↔ ∃ a, e = .ok a ∧ b = g a := by
  cases e with
  | error m => simp [Except.map]
  | ok a => simp [Except.map, eq_comm]

theorem patchFirst_ok_iff {p : α → Bool} {f : α → Except String α}
    {err : String} {l l' : List α} :
    patchFirst p f err l = .ok l' ↔
      ∃ x y, l.find? p = some x ∧ f x = .ok y ∧
        l' = setFirst p (fun _ => y) l := by
  induction l generalizing l' with
  | nil => simp [patchFirst]
  | cons a as ih =>
    by_cases hp : p a = true
    · simp only [patchFirst, setFirst, hp, if_true, List.find?_cons_of_pos _ hp,
        except_map_ok]
      constructor
      · rintro ⟨y, hy, rfl⟩
        exact ⟨a, y, rfl, hy, rfl⟩
      · rintro ⟨x, y, hx, hy, rfl⟩
        cases hx
        exact ⟨y, hy, rfl⟩
    · simp only [patchFirst, setFirst, hp, if_false, Bool.false_eq_true,
        List.find?_cons_of_neg _ (by simpa using hp), except_map_ok]
      constructor
      · rintro ⟨ys, hys, rfl⟩
        obtain ⟨x, y, hx, hy, rfl⟩ := ih.1 hys
        exact ⟨x, y, hx, hy, rfl⟩
      · rintro ⟨x, y, hx, hy, rfl⟩
        exact ⟨setFirst p (fun _ => y) as, ih.2 ⟨x, y, hx, hy, rfl⟩, rfl⟩

theorem find?_setFirst_self {p : α → Bool} {l : List α} {x : α} (y : α)
    (hfind : l.find? p = some x) (hy : p y = true) :
    (setFirst p (fun _ => y) l).find? p = some y := by
  induction l with
  | nil => simp at hfind
  | cons a as ih =>
    by_cases hp : p a = true
    · simp [setFirst, hp, List.find?_cons_of_pos _ hy]
    · rw [List.find?_cons_of_neg _ (by simpa using hp)] at hfind
      simp [setFirst, hp, List.find?_cons_of_neg _ (by simpa using hp), ih hfind]

theorem find?_setFirst_disjoint {p q : α → Bool} {l : List α} {x : α} (y : α)
    (hfind : l.find? p = some x) (hqy : q y = q x)
    (hdisj : ∀ z, p z = true → q z = false) :
    (setFirst p (fun _ => y) l).find? q = l.find? q := by
  induction l with
  | nil => simp at hfind
  | cons a as ih =>
    by_cases hp : p a = true
    · rw [List.find?_cons_of_pos _ hp] at hfind
      cases hfind
      have hqa : q x = false := hdisj x hp
      simp only [setFirst, hp, if_true]
      rw [List.find?_cons_of_neg _ (by simp [hqy, hqa]),
        List.find?_cons_of_neg _ (by simp [hqa])]
    · rw [List.find?_cons_of_neg _ (by simpa using hp)] at hfind
      by_cases hq : q a = true
      · simp [setFirst, hp, List.find?_cons_of_pos _ hq]
      · simp only [setFirst, hp, if_false, Bool.false_eq_true]
        rw [List.find?_cons_of_neg _ (by simpa using hq),
          List.find?_cons_of_neg _ (by simpa using hq)]
        exact ih hfind

theorem map_setFirst_const {p : α → Bool} {l : List α} {x : α} (y : α)
    (h : α → β) (hfind : l.find? p = some x) (hy : h y = h x) :
    (setFirst p (fun _ => y) l).map h = l.map h := by
  induction l with
  | nil => simp at hfind
  | cons a as ih =>
    by_cases hp : p a = true
    · rw [List.find?_cons_of_pos _ hp] at hfind
      cases hfind
      simp [setFirst, hp, hy]
    · rw [List.find?_cons_of_neg _ (by simpa using hp)] at hfind
      simp [setFirst, hp, ih hfind]

theorem get?_set_self {l : List α} {i : Nat} {x : α} (y : α)
    (h : l.get? i = some x) : (l.set i y).get? i = some y := by
  induction l generalizing i with
  | nil => simp at h
  | cons a as ih =>
    cases i with
    | zero => rfl
    | succ n => exact ih (by simpa using h)

theorem get?_set_ne {l : List α} {i j : Nat} (y : α) (h : i ≠ j) :
    (l.set i y).get? j = l.get? j := by
  induction l generalizing i j with
  | nil => simp
  | cons a as ih =>
    cases i with
    | zero =>
      cases j with
      | zero => exact absurd rfl h
      | succ m => rfl
    | succ n =>
      cases j with
      | zero => rfl
      | succ m => exact ih fun hnm => h (by rw [hnm])

theorem map_set_congr {l : List α} {i : Nat} {x : α} (y : α) (h : α → β)
    (hget : l.get? i = some x) (hy : h y = h x) :
    (l.set i y).map h = l.map h := by
  induction l generalizing i with
  | nil => simp at hget
  | cons a as ih =>
    cases i with
    | zero =>
      cases hget
      simp [hy]
    | succ n => simp [ih (by simpa using hget)]

theorem map_const_set {l : List α} {i : Nat} (y : α) (z : β) :
    (l.set i y).map (fun _ => z) = l.map fun _ => z := by
  induction l generalizing i with
  | nil => simp
  | cons a as ih =>
    cases i with
    | zero => rfl
    | succ n => simp [ih]

theorem find?_nonempty {p : α → Bool} {l : List α} {x : α}
    (h : l.find? p = some x) : l ≠ [] := by
  intro hl
  subst hl
  simp at h

theorem get?_nonempty {l : List α} {i : Nat} {x : α}
    (h : l.get? i = some x) : l ≠ [] := by
  intro hl
  subst hl
  simp at h

theorem patchContentAt_ok_iff {sOld sNew : String} {author : Option Author}
    {errIdx errNF : String} {rvs rvs' : List ContentItem} {ridx : Nat} :
    patchContentAt sOld sNew author errIdx errNF rvs ridx = .ok rvs' ↔
      ∃ rv, rvs.get? ridx = some rv ∧
        pyContains (normText rv.content) sOld = true ∧
        rvs' = rvs.set ridx
          { content := pyReplaceFirst (normText rv.content) sOld sNew
            author := appendAuthorOpt author rv.author } := by
  unfold patchContentAt
  cases hget : rvs.get? ridx with
  | none => simp
  | some rv =>
    by_cases hc : pyContains (normText rv.content) sOld = true
    · simp only [hc, if_true]
      constructor
      · rintro h
        cases h
        exact ⟨rv, rfl, hc, rfl⟩
      · rintro ⟨rv2, hrv2, _, rfl⟩
        injection hrv2 with h2
        subst h2
        rfl
    · simp only [hc, if_false, Bool.false_eq_true]
      constructor
      · rintro h
        cases h
      · rintro ⟨rv2, hrv2, hc2, _⟩
        injection hrv2 with h2
        subst h2
        exact absurd hc2 hc

/-- A successful local patch presupposes that the target resolved and
that the addressed field's normalized content still contained the
normalized old paragraph. -/
theorem patch_ok_resolve {doc doc' : Doc} {r : Ref} {old new : String}
    {author : Option Author}
    (h : patchTomlByTarget doc r old new author = .ok doc') :
    ∃ c, doc.fieldContent r = some c ∧
      pyContains (normText c) (normText old) = true := by
  by_cases hold : normText old = ""
  · unfold patchTomlByTarget at h
    rw [if_pos hold] at h
    cases h
  · cases r with
    | description =>
      unfold patchTomlByTarget at h
      rw [if_neg hold] at h
      dsimp only at h
      by_cases hc : pyContains (normText doc.description) (normText old) = true
      · exact ⟨doc.description, rfl, hc⟩
      · rw [if_neg hc] at h
        cases h
    | lecturerReview lname ridx =>
      unfold patchTomlByTarget at h
      rw [if_neg hold] at h
      dsimp only at h
      by_cases hl : doc.lecturers = []
      · rw [if_pos hl] at h
        cases h
      · rw [if_neg hl] at h
        obtain ⟨ls, hls, rfl⟩ := except_map_ok.1 h
        obtain ⟨lec, y, hfind, hf, rfl⟩ := patchFirst_ok_iff.1 hls
        obtain ⟨rvs, hrvs, rfl⟩ := except_map_ok.1 hf
        obtain ⟨rv, hget, hcont, rfl⟩ := patchContentAt_ok_iff.1 hrvs
        refine ⟨rv.content, ?_, hcont⟩
        simp only [Doc.fieldContent, hfind, Option.some_bind]
        simp
        exact ⟨rv, by simpa using hget, rfl⟩
    | sectionItem t i =>
      unfold patchTomlByTarget at h
      rw [if_neg hold] at h
      dsimp only at h
      cases h
    | courseTeacherReview cidx cname tname ridx =>
      unfold patchTomlByTarget at h
      rw [if_neg hold] at h
      dsimp only at h
      by_cases hcs : doc.courses = []
      · rw [if_pos hcs] at h
        cases h
      · rw [if_neg hcs] at h
        cases hgc : doc.courses.get? cidx with
        | none =>
          rw [hgc] at h
          cases h
        | some c =>
          rw [hgc] at h
          dsimp only at h
          by_cases ht : c.teachers = []
          · rw [if_pos ht] at h
            cases h
          · rw [if_neg ht] at h
            obtain ⟨ts, hts, rfl⟩ := except_map_ok.1 h
            obtain ⟨t, y, hfind, hf, rfl⟩ := patchFirst_ok_iff.1 hts
            obtain ⟨rvs, hrvs, rfl⟩ := except_map_ok.1 hf
            obtain ⟨rv, hget, hcont, rfl⟩ := patchContentAt_ok_iff.1 hrvs
            refine ⟨rv.content, ?_, hcont⟩
            simp only [Doc.fieldContent, hgc, hfind, Option.some_bind]
            simp
            exact ⟨rv, by simpa using hget, rfl⟩
    | courseSectionItem cidx cname stitle iidx =>
      unfold patchTomlByTarget at h
      rw [if_neg hold] at h
      dsimp only at h
      by_cases hcs : doc.courses = []
      · rw [if_pos hcs] at h
        cases h
      · rw [if_neg hcs] at h
        cases hgc : doc.courses.get? cidx with
        | none =>
          rw [hgc] at h
          cases h
        | some c =>
          rw [hgc] at h
          dsimp only at h
          by_cases ht : c.sections = []
          · rw [if_pos ht] at h
            cases h
          · rw [if_neg ht] at h
            obtain ⟨ss, hss, rfl⟩ := except_map_ok.1 h
            obtain ⟨sec, y, hfind, hf, rfl⟩ := patchFirst_ok_iff.1 hss
            obtain ⟨its, hits, rfl⟩ := except_map_ok.1 hf
            obtain ⟨it, hget, hcont, rfl⟩ := patchContentAt_ok_iff.1 hits
            refine ⟨it.content, ?_, hcont⟩
            simp only [Doc.fieldContent, hgc, hfind, Option.some_bind]
            simp
            exact ⟨it, by simpa using hget, rfl⟩

/-- C3: when the target no longer resolves, or the addressed field's
normalized current text no longer contains the normalized old paragraph,
the patch operation raises a distinct error and returns no patched
document (the input snapshot is a value, hence untouched). -/
theorem patch_stale_content_errors (doc : Doc) (r : Ref) (old new : String)
    (author : Option Author)
    (h : ∀ c, doc.fieldContent r = some c →
      pyContains (normText c) (normText old) = false) :
    ∃ msg, patchTomlByTarget doc r old new author = .error msg := by
  cases hp : patchTomlByTarget doc r old new author with
  | error m => exact ⟨m, rfl⟩
  | ok doc' =>
    obtain ⟨c, hc, hcont⟩ := patch_ok_resolve hp
    rw [h c hc] at hcont
    cases hcont

theorem patch_stale_content_errors_witness :
    (∀ c, exampleDocOrder.fieldContent Ref.description = some c →
      pyContains (normText c) (normText "zzzzz") = false) ∧
    ∃ msg, patchTomlByTarget exampleDocOrder Ref.description "zzzzz" "ww" none =
      .error msg := by
  have hall : ∀ c, exampleDocOrder.fieldContent Ref.description = some c →
      pyContains (normText c) (normText "zzzzz") = false := by
    intro c hc
    have hc2 : c = "" := by
      have := hc.symm
      simpa [Doc.fieldContent, exampleDocOrder] using this
    subst hc2
    decide
  exact ⟨hall, patch_stale_content_errors exampleDocOrder Ref.description
    "zzzzz" "ww" none hall⟩

/-- The review/item list produced by a successful `patchContentAt`:
the element at the index gets the first occurrence of the old text
replaced and the optional attribution appended. -/
def patchedReviews (rvs : List ContentItem) (i : Nat) (rv : ContentItem)
    (old new : String) (author : Option Author) : List ContentItem :=
  rvs.set i ⟨pyReplaceFirst (normText rv.content) (normText old) (normText new),
    appendAuthorOpt author rv.author⟩

/-- Explicit form of a successful description patch. -/
theorem patch_description_ok (doc : Doc) (old new : String)
    (author : Option Author) (hold : normText old ≠ "")
    (hcont : pyContains (normText doc.description) (normText old) = true) :
    patchTomlByTarget doc .description old new author =
      .ok { doc with description :=
        pyReplaceFirst (normText doc.description) (normText old) (normText new) } := by
  unfold patchTomlByTarget
  rw [if_neg hold]
  dsimp only
  rw [if_pos hcont]

/-- Explicit form of a successful lecturer-review patch. -/
theorem patch_lecturer_ok (doc : Doc) (lname : String) (ridx : Nat)
    (old new : String) (author : Option Author) (lec : TeacherTbl)
    (rv : ContentItem) (hold : normText old ≠ "")
    (hfind : doc.lecturers.find? (fun l => pyStrip l.name = pyStrip lname) = some lec)
    (hget : lec.reviews.get? ridx = some rv)
    (hcont : pyContains (normText rv.content) (normText old) = true) :
    patchTomlByTarget doc (.lecturerReview lname ridx) old new author =
      .ok { doc with lecturers :=
        (setFirst (fun l => pyStrip l.name = pyStrip lname)
          (fun _ => { lec with reviews := patchedReviews lec.reviews ridx rv old new author })
          doc.lecturers) } := by
  have hbody : patchContentAt (normText old) (normText new) author "reviews 索引越界"
      "原段落未在该教师评价中找到（内容已变化？）" lec.reviews ridx =
      .ok (patchedReviews lec.reviews ridx rv old new author) :=
    patchContentAt_ok_iff.2 ⟨rv, hget, hcont, rfl⟩
  unfold patchTomlByTarget
  rw [if_neg hold]
  dsimp only
  rw [if_neg (find?_nonempty hfind), except_map_ok]
  refine ⟨_, ?_, rfl⟩
  rw [patchFirst_ok_iff]
  refine ⟨lec, { lec with reviews := patchedReviews lec.reviews ridx rv old new author },
    hfind, ?_, rfl⟩
  dsimp only
  rw [hbody]
  rfl

/-- Explicit form of a successful course-teacher-review patch. -/
theorem patch_course_teacher_ok (doc : Doc) (cidx : Nat) (cname tname : String)
    (ridx : Nat) (old new : String) (author : Option Author) (c : CourseTbl)
    (t : TeacherTbl) (rv : ContentItem) (hold : normText old ≠ "")
    (hgc : doc.courses.get? cidx = some c)
    (hfind : c.teachers.find? (fun z => pyStrip z.name = pyStrip tname) = some t)
    (hget : t.reviews.get? ridx = some rv)
    (hcont : pyContains (normText rv.content) (normText old) = true) :
    patchTomlByTarget doc (.courseTeacherReview cidx cname tname ridx) old new author =
      .ok { doc with courses := (doc.courses.set cidx
        { c with teachers :=
            (setFirst (fun z => pyStrip z.name = pyStrip tname)
              (fun _ => { t with reviews := patchedReviews t.reviews ridx rv old new author })
              c.teachers) }) } := by
  have hbody : patchContentAt (normText old) (normText new) author "reviews 索引越界"
      "原段落未在该教师评价中找到（内容已变化？）" t.reviews ridx =
      .ok (patchedReviews t.reviews ridx rv old new author) :=
    patchContentAt_ok_iff.2 ⟨rv, hget, hcont, rfl⟩
  unfold patchTomlByTarget
  rw [if_neg hold]
  dsimp only
  rw [if_neg (get?_nonempty hgc), hgc]
  dsimp only
  rw [if_neg (find?_nonempty hfind), except_map_ok]
  refine ⟨_, ?_, rfl⟩
  rw [patchFirst_ok_iff]
  refine ⟨t, { t with reviews := patchedReviews t.reviews ridx rv old new author },
    hfind, ?_, rfl⟩
  dsimp only
  rw [hbody]
  rfl

/-- Explicit form of a successful course-section-item patch. -/
theorem patch_course_section_ok (doc : Doc) (cidx : Nat) (cname stitle : String)
    (iidx : Nat) (old new : String) (author : Option Author) (c : CourseTbl)
    (sec : SectionTbl) (it : ContentItem) (hold : normText old ≠ "")
    (hgc : doc.courses.get? cidx = some c)
    (hfind : c.sections.find? (fun z => pyStrip z.title = pyStrip stitle) = some sec)
    (hget : sec.items.get? iidx = some it)
    (hcont : pyContains (normText it.content) (normText old) = true) :
    patchTomlByTarget doc (.courseSectionItem cidx cname stitle iidx) old new author =
      .ok { doc with courses := (doc.courses.set cidx
        { c with sections :=
            (setFirst (fun z => pyStrip z.title = pyStrip stitle)
              (fun _ => { sec with items := patchedReviews sec.items iidx it old new author })
              c.sections) }) } := by
  have hbody : patchContentAt (normText old) (normText new) author "items 索引越界"
      "原段落未在该条目中找到（内容已变化？）" sec.items iidx =
      .ok (patchedReviews sec.items iidx it old new author) :=
    patchContentAt_ok_iff.2 ⟨it, hget, hcont, rfl⟩
  unfold patchTomlByTarget
  rw [if_neg hold]
  dsimp only
  rw [if_neg (get?_nonempty hgc), hgc]
  dsimp only
  rw [if_neg (find?_nonempty hfind), except_map_ok]
  refine ⟨_, ?_, rfl⟩
  rw [patchFirst_ok_iff]
  refine ⟨sec, { sec with items := patchedReviews sec.items iidx it old new author },
    hfind, ?_, rfl⟩
  dsimp only
  rw [hbody]
  rfl

theorem option_bind_eq_some_iff {x : Option α} {f : α → Option β} {b : β} :
    x.bind f = some b ↔ ∃ a, x = some a ∧ f a = some b := by
  cases x <;> simp

theorem option_map_eq_some_iff {x : Option α} {f : α → β} {b : β} :
    x.map f = some b ↔ ∃ a, x = some a ∧ f a = b := by
  cases x with
  | none => simp
  | some a => simp [eq_comm]

/-- Whether `_patch_toml_by_target` handles this target type locally
(a top-level `section_item` is routed to the remote `submit_ops` call
instead and is rejected by this function). -/
def Ref.locallyPatched : Ref → Bool
  | .sectionItem _ _ => false
  | _ => true

/-- Full conclusion of C2 for a description target. -/
theorem patch_isolated_description (doc : Doc) (old new : String)
    (author : Option Author) (hold : normText old ≠ "")
    (hcont : pyContains (normText doc.description) (normText old) = true) :
    ∃ doc', patchTomlByTarget doc .description old new author = .ok doc' ∧
      doc'.fieldContent .description =
        some (pyReplaceFirst (normText doc.description) (normText old) (normText new)) ∧
      (author = none → doc'.fieldAuthor .description = doc.fieldAuthor .description) ∧
      doc'.skeleton = doc.skeleton ∧
      ∀ r', refCanon r' ≠ refCanon .description →
        doc'.fieldContent r' = doc.fieldContent r' ∧
        doc'.fieldAuthor r' = doc.fieldAuthor r' := by
  refine ⟨_, patch_description_ok doc old new author hold hcont, rfl,
    fun _ => rfl, rfl, ?_⟩
  intro r' hne
  cases r' with
  | description => exact absurd rfl hne
  | lecturerReview ln i => exact ⟨rfl, rfl⟩
  | sectionItem t i => exact ⟨rfl, rfl⟩
  | courseTeacherReview ci cn tn ri => exact ⟨rfl, rfl⟩
  | courseSectionItem ci cn st ii => exact ⟨rfl, rfl⟩

/-- Full conclusion of C2 for a lecturer-review target. -/
theorem patch_isolated_lecturer (doc : Doc) (lname : String) (ridx : Nat)
    (old new : String) (author : Option Author) (lec : TeacherTbl)
    (rv : ContentItem) (hold : normText old ≠ "")
    (hfind : doc.lecturers.find? (fun l => pyStrip l.name = pyStrip lname) = some lec)
    (hget : lec.reviews.get? ridx = some rv)
    (hcont : pyContains (normText rv.content) (normText old) = true) :
    ∃ doc', patchTomlByTarget doc (.lecturerReview lname ridx) old new author = .ok doc' ∧
      doc'.fieldContent (.lecturerReview lname ridx) =
        some (pyReplaceFirst (normText rv.content) (normText old) (normText new)) ∧
      (author = none → doc'.fieldAuthor (.lecturerReview lname ridx) =
        doc.fieldAuthor (.lecturerReview lname ridx)) ∧
      doc'.skeleton = doc.skeleton ∧
      ∀ r', refCanon r' ≠ refCanon (.lecturerReview lname ridx) →
        doc'.fieldContent r' = doc.fieldContent r' ∧
        doc'.fieldAuthor r' = doc.fieldAuthor r' := by
  have hplec := List.find?_some hfind
  have hpy : (fun l : TeacherTbl => decide (pyStrip l.name = pyStrip lname))
      ({ lec with reviews := patchedReviews lec.reviews ridx rv old new author }) = true :=
    hplec
  have hself := find?_setFirst_self
    ({ lec with reviews := patchedReviews lec.reviews ridx rv old new author }) hfind hpy
  refine ⟨_, patch_lecturer_ok doc lname ridx old new author lec rv hold hfind hget hcont,
    ?_, ?_, ?_, ?_⟩
  · simp only [Doc.fieldContent]
    rw [hself]
    simp only [Option.some_bind, patchedReviews]
    rw [get?_set_self _ hget]
    rfl
  · intro ha
    subst ha
    simp only [Doc.fieldAuthor]
    rw [hself, hfind]
    simp only [Option.some_bind, patchedReviews]
    rw [get?_set_self _ hget, hget]
    rfl
  · simp only [Doc.skeleton]
    congr 1
    refine map_setFirst_const _ _ hfind ?_
    simp only [patchedReviews]
    rw [map_const_set]
  · intro r' hne
    cases r' with
    | description => exact ⟨rfl, rfl⟩
    | sectionItem t i => exact ⟨rfl, rfl⟩
    | courseTeacherReview ci cn tn ri => exact ⟨rfl, rfl⟩
    | courseSectionItem ci cn st ii => exact ⟨rfl, rfl⟩
    | lecturerReview ln i =>
      by_cases hname : pyStrip ln = pyStrip lname
      · have hidx : i ≠ ridx := by
          intro hi
          exact hne (by simp [refCanon, hname, hi])
        constructor
        · simp only [Doc.fieldContent, hname]
          rw [hself, hfind]
          simp only [Option.some_bind, patchedReviews]
          rw [get?_set_ne _ fun h => hidx h.symm]
        · simp only [Doc.fieldAuthor, hname]
          rw [hself, hfind]
          simp only [Option.some_bind, patchedReviews]
          rw [get?_set_ne _ fun h => hidx h.symm]
      · have hdisj : ∀ z : TeacherTbl,
            (fun l : TeacherTbl => decide (pyStrip l.name = pyStrip lname)) z = true →
            (fun l : TeacherTbl => decide (pyStrip l.name = pyStrip ln)) z = false := by
          intro z hz
          simp only [decide_eq_true_eq] at hz
          simp only [decide_eq_false_iff_not]
          rw [hz]
          exact fun h => hname h.symm
        have hq := find?_setFirst_disjoint
          ({ lec with reviews := patchedReviews lec.reviews ridx rv old new author })
          hfind rfl hdisj
        exact ⟨by simp only [Doc.fieldContent]; rw [hq],
          by simp only [Doc.fieldAuthor]; rw [hq]⟩

/-- Full conclusion of C2 for a course-teacher-review target. -/
theorem patch_isolated_course_teacher (doc : Doc) (cidx : Nat)
    (cname tname : String) (ridx : Nat) (old new : String)
    (author : Option Author) (c : CourseTbl) (t : TeacherTbl)
    (rv : ContentItem) (hold : normText old ≠ "")
    (hgc : doc.courses.get? cidx = some c)
    (hfind : c.teachers.find? (fun z => pyStrip z.name = pyStrip tname) = some t)
    (hget : t.reviews.get? ridx = some rv)
    (hcont : pyContains (normText rv.content) (normText old) = true) :
    ∃ doc', patchTomlByTarget doc (.courseTeacherReview cidx cname tname ridx)
        old new author = .ok doc' ∧
      doc'.fieldContent (.courseTeacherReview cidx cname tname ridx) =
        some (pyReplaceFirst (normText rv.content) (normText old) (normText new)) ∧
      (author = none → doc'.fieldAuthor (.courseTeacherReview cidx cname tname ridx) =
        doc.fieldAuthor (.courseTeacherReview cidx cname tname ridx)) ∧
      doc'.skeleton = doc.skeleton ∧
      ∀ r', refCanon r' ≠ refCanon (.courseTeacherReview cidx cname tname ridx) →
        doc'.fieldContent r' = doc.fieldContent r' ∧
        doc'.fieldAuthor r' = doc.fieldAuthor r' := by
  have hpt := List.find?_some hfind
  have hpy : (fun z : TeacherTbl => decide (pyStrip z.name = pyStrip tname))
      ({ t with reviews := patchedReviews t.reviews ridx rv old new author }) = true :=
    hpt
  have hself := find?_setFirst_self
    ({ t with reviews := patchedReviews t.reviews ridx rv old new author }) hfind hpy
  have hgc' := get?_set_self
    ({ c with teachers :=
      (setFirst (fun z => pyStrip z.name = pyStrip tname)
        (fun _ => { t with reviews := patchedReviews t.reviews ridx rv old new author })
        c.teachers) }) hgc
  refine ⟨_, patch_course_teacher_ok doc cidx cname tname ridx old new author
    c t rv hold hgc hfind hget hcont, ?_, ?_, ?_, ?_⟩
  · simp only [Doc.fieldContent]
    rw [hgc']
    simp only [Option.some_bind]
    rw [hself]
    simp only [Option.some_bind, patchedReviews]
    rw [get?_set_self _ hget]
    rfl
  · intro ha
    subst ha
    simp only [Doc.fieldAuthor]
    rw [hgc', hgc]
    simp only [Option.some_bind]
    rw [hself, hfind]
    simp only [Option.some_bind, patchedReviews]
    rw [get?_set_self _ hget, hget]
    rfl
  · simp only [Doc.skeleton]
    congr 1
    refine map_set_congr _ _ hgc ?_
    congr 1
    refine map_setFirst_const _ _ hfind ?_
    simp only [patchedReviews]
    rw [map_const_set]
  · intro r' hne
    cases r' with
    | description => exact ⟨rfl, rfl⟩
    | lecturerReview ln i => exact ⟨rfl, rfl⟩
    | sectionItem st i => exact ⟨rfl, rfl⟩
    | courseSectionItem ci cn st ii =>
      by_cases hci : cidx = ci
      · subst hci
        constructor
        · simp only [Doc.fieldContent]
          rw [hgc', hgc]
          rfl
        · simp only [Doc.fieldAuthor]
          rw [hgc', hgc]
          rfl
      · exact ⟨by simp only [Doc.fieldContent]; rw [get?_set_ne _ hci],
          by simp only [Doc.fieldAuthor]; rw [get?_set_ne _ hci]⟩
    | courseTeacherReview ci cn tn ri =>
      by_cases hci : cidx = ci
      · subst hci
        have hrest : ¬(pyStrip tn = pyStrip tname ∧ ri = ridx) := by
          rintro ⟨h1, h2⟩
          exact hne (by simp [refCanon, h1, h2])
        by_cases hname : pyStrip tn = pyStrip tname
        · have hidx : ri ≠ ridx := fun hi => hrest ⟨hname, hi⟩
          constructor
          · simp only [Doc.fieldContent, hname]
            rw [hgc', hgc]
            simp only [Option.some_bind]
            rw [hself, hfind]
            simp only [Option.some_bind, patchedReviews]
            rw [get?_set_ne _ fun h => hidx h.symm]
          · simp only [Doc.fieldAuthor, hname]
            rw [hgc', hgc]
            simp only [Option.some_bind]
            rw [hself, hfind]
            simp only [Option.some_bind, patchedReviews]
            rw [get?_set_ne _ fun h => hidx h.symm]
        · have hdisj : ∀ z : TeacherTbl,
              (fun w : TeacherTbl => decide (pyStrip w.name = pyStrip tname)) z = true →
              (fun w : TeacherTbl => decide (pyStrip w.name = pyStrip tn)) z = false := by
            intro z hz
            simp only [decide_eq_true_eq] at hz
            simp only [decide_eq_false_iff_not]
            rw [hz]
            exact fun h => hname h.symm
          have hq := find?_setFirst_disjoint
            ({ t with reviews := patchedReviews t.reviews ridx rv old new author })
            hfind rfl hdisj
          constructor
          · simp only [Doc.fieldContent]
            rw [hgc', hgc]
            simp only [Option.some_bind]
            rw [hq]
          · simp only [Doc.fieldAuthor]
            rw [hgc', hgc]
            simp only [Option.some_bind]
            rw [hq]
      · exact ⟨by simp only [Doc.fieldContent]; rw [get?_set_ne _ hci],
          by simp only [Doc.fieldAuthor]; rw [get?_set_ne _ hci]⟩

/-- Full conclusion of C2 for a course-section-item target. -/
theorem patch_isolated_course_section (doc : Doc) (cidx : Nat)
    (cname stitle : String) (iidx : Nat) (old new : String)
    (author : Option Author) (c : CourseTbl) (sec : SectionTbl)
    (it : ContentItem) (hold : normText old ≠ "")
    (hgc : doc.courses.get? cidx = some c)
    (hfind : c.sections.find? (fun z => pyStrip z.title = pyStrip stitle) = some sec)
    (hget : sec.items.get? iidx = some it)
    (hcont : pyContains (normText it.content) (normText old) = true) :
    ∃ doc', patchTomlByTarget doc (.courseSectionItem cidx cname stitle iidx)
        old new author = .ok doc' ∧
      doc'.fieldContent (.courseSectionItem cidx cname stitle iidx) =
        some (pyReplaceFirst (normText it.content) (normText old) (normText new)) ∧
      (author = none → doc'.fieldAuthor (.courseSectionItem cidx cname stitle iidx) =
        doc.fieldAuthor (.courseSectionItem cidx cname stitle iidx)) ∧
      doc'.skeleton = doc.skeleton ∧
      ∀ r', refCanon r' ≠ refCanon (.courseSectionItem cidx cname stitle iidx) →
        doc'.fieldContent r' = doc.fieldContent r' ∧
        doc'.fieldAuthor r' = doc.fieldAuthor r' := by
  have hps := List.find?_some hfind
  have hpy : (fun z : SectionTbl => decide (pyStrip z.title = pyStrip stitle))
      ({ sec with items := patchedReviews sec.items iidx it old new author }) = true :=
    hps
  have hself := find?_setFirst_self
    ({ sec with items := patchedReviews sec.items iidx it old new author }) hfind hpy
  have hgc' := get?_set_self
    ({ c with sections :=
      (setFirst (fun z => pyStrip z.title = pyStrip stitle)
        (fun _ => { sec with items := patchedReviews sec.items iidx it old new author })
        c.sections) }) hgc
  refine ⟨_, patch_course_section_ok doc cidx cname stitle iidx old new author
    c sec it hold hgc hfind hget hcont, ?_, ?_, ?_, ?_⟩
  · simp only [Doc.fieldContent]
    rw [hgc']
    simp only [Option.some_bind]
    rw [hself]
    simp only [Option.some_bind, patchedReviews]
    rw [get?_set_self _ hget]
    rfl
  · intro ha
    subst ha
    simp only [Doc.fieldAuthor]
    rw [hgc', hgc]
    simp only [Option.some_bind]
    rw [hself, hfind]
    simp only [Option.some_bind, patchedReviews]
    rw [get?_set_self _ hget, hget]
    rfl
  · simp only [Doc.skeleton]
    congr 1
    refine map_set_congr _ _ hgc ?_
    congr 1
    refine map_setFirst_const _ _ hfind ?_
    simp only [patchedReviews]
    rw [map_const_set]
  · intro r' hne
    cases r' with
    | description => exact ⟨rfl, rfl⟩
    | lecturerReview ln i => exact ⟨rfl, rfl⟩
    | sectionItem st i => exact ⟨rfl, rfl⟩
    | courseTeacherReview ci cn tn ri =>
      by_cases hci : cidx = ci
      · subst hci
        constructor
        · simp only [Doc.fieldContent]
          rw [hgc', hgc]
          rfl
        · simp only [Doc.fieldAuthor]
          rw [hgc', hgc]
          rfl
      · exact ⟨by simp only [Doc.fieldContent]; rw [get?_set_ne _ hci],
          by simp only [Doc.fieldAuthor]; rw [get?_set_ne _ hci]⟩
    | courseSectionItem ci cn st ii =>
      by_cases hci : cidx = ci
      · subst hci
        have hrest : ¬(pyStrip st = pyStrip stitle ∧ ii = iidx) := by
          rintro ⟨h1, h2⟩
          exact hne (by simp [refCanon, h1, h2])
        by_cases hname : pyStrip st = pyStrip stitle
        · have hidx : ii ≠ iidx := fun hi => hrest ⟨hname, hi⟩
          constructor
          · simp only [Doc.fieldContent, hname]
            rw [hgc', hgc]
            simp only [Option.some_bind]
            rw [hself, hfind]
            simp only [Option.some_bind, patchedReviews]
            rw [get?_set_ne _ fun h => hidx h.symm]
          · simp only [Doc.fieldAuthor, hname]
            rw [hgc', hgc]
            simp only [Option.some_bind]
            rw [hself, hfind]
            simp only [Option.some_bind, patchedReviews]
            rw [get?_set_ne _ fun h => hidx h.symm]
        · have hdisj : ∀ z : SectionTbl,
              (fun w : SectionTbl => decide (pyStrip w.title = pyStrip stitle)) z = true →
              (fun w : SectionTbl => decide (pyStrip w.title = pyStrip st)) z = false := by
            intro z hz
            simp only [decide_eq_true_eq] at hz
            simp only [decide_eq_false_iff_not]
            rw [hz]
            exact fun h => hname h.symm
          have hq := find?_setFirst_disjoint
            ({ sec with items := patchedReviews sec.items iidx it old new author })
            hfind rfl hdisj
          constructor
          · simp only [Doc.fieldContent]
            rw [hgc', hgc]
            simp only [Option.some_bind]
            rw [hq]
          · simp only [Doc.fieldAuthor]
            rw [hgc', hgc]
            simp only [Option.some_bind]
            rw [hq]
      · exact ⟨by simp only [Doc.fieldContent]; rw [get?_set_ne _ hci],
          by simp only [Doc.fieldAuthor]; rw [get?_set_ne _ hci]⟩

instance instDecEqExcept [DecidableEq ε] [DecidableEq α] : DecidableEq (Except ε α) :=
  fun x y =>
  match x, y with
  | .error a, .error b =>
    if h : a = b then isTrue (by rw [h])
    else isFalse (by intro hh; cases hh; exact h rfl)
  | .ok a, .ok b =>
    if h : a = b then isTrue (by rw [h])
    else isFalse (by intro hh; cases hh; exact h rfl)
  | .error _, .ok _ => isFalse (by intro hh; cases hh)
  | .ok _, .error _ => isFalse (by intro hh; cases hh)

/-- C2 counterexample: `_patch_toml_by_target` does not patch a top-level
`section_item` NodeRef even when the addressed field still contains the
old text — that target type reaches the function's `unsupported target
type` raise (the handler routes it to the remote `submit_ops` dry run
instead). -/
theorem patch_rejects_top_level_section_item :
    exampleDocOrder.fieldContent (Ref.sectionItem "考试" 0) =
      some "item abcdefghij" ∧
    pyContains (normText "item abcdefghij") (normText "item abcd") = true ∧
    patchTomlByTarget exampleDocOrder (Ref.sectionItem "考试" 0)
      "item abcd" "replacement" none =
      .error "unsupported target type: section_item" := by
  decide

/-- C2 (amended): for every locally-patchable target NodeRef (description,
lecturer review, sub-course teacher review, sub-course section item) with
non-empty normalized old text, if the target resolves and the addressed
field's normalized text contains the normalized old text, the patch
succeeds, replaces exactly the first occurrence of the old text with the
new text inside that one field, leaves the field's attribution untouched
when none was requested, and leaves the document skeleton and every field
with a different canonical address (content and attribution) unchanged. -/
theorem patch_replaces_first_occurrence_isolated (doc : Doc) (r : Ref)
    (old new : String) (author : Option Author) (ctext : String)
    (hk : r.locallyPatched = true)
    (hold : normText old ≠ "")
    (hres : doc.fieldContent r = some ctext)
    (hcont : pyContains (normText ctext) (normText old) = true) :
    ∃ doc', patchTomlByTarget doc r old new author = .ok doc' ∧
      doc'.fieldContent r =
        some (pyReplaceFirst (normText ctext) (normText old) (normText new)) ∧
      (author = none → doc'.fieldAuthor r = doc.fieldAuthor r) ∧
      doc'.skeleton = doc.skeleton ∧
      ∀ r', refCanon r' ≠ refCanon r →
        doc'.fieldContent r' = doc.fieldContent r' ∧
        doc'.fieldAuthor r' = doc.fieldAuthor r' := by
  cases r with
  | description =>
    simp only [Doc.fieldContent, Option.some.injEq] at hres
    subst hres
    exact patch_isolated_description doc old new author hold hcont
  | sectionItem t i => simp [Ref.locallyPatched] at hk
  | lecturerReview lname ridx =>
    simp only [Doc.fieldContent] at hres
    obtain ⟨lec, hfind, hres2⟩ := option_bind_eq_some_iff.1 hres
    obtain ⟨rv, hget, hcv⟩ := option_map_eq_some_iff.1 hres2
    subst hcv
    exact patch_isolated_lecturer doc lname ridx old new author lec rv
      hold hfind hget hcont
  | courseTeacherReview cidx cname tname ridx =>
    simp only [Doc.fieldContent] at hres
    obtain ⟨ctbl, hgc, hres2⟩ := option_bind_eq_some_iff.1 hres
    obtain ⟨t, hfind, hres3⟩ := option_bind_eq_some_iff.1 hres2
    obtain ⟨rv, hget, hcv⟩ := option_map_eq_some_iff.1 hres3
    subst hcv
    exact patch_isolated_course_teacher doc cidx cname tname ridx old new author
      ctbl t rv hold hgc hfind hget hcont
  | courseSectionItem cidx cname stitle iidx =>
    simp only [Doc.fieldContent] at hres
    obtain ⟨ctbl, hgc, hres2⟩ := option_bind_eq_some_iff.1 hres
    obtain ⟨sec, hfind, hres3⟩ := option_bind_eq_some_iff.1 hres2
    obtain ⟨it, hget, hcv⟩ := option_map_eq_some_iff.1 hres3
    subst hcv
    exact patch_isolated_course_section doc cidx cname stitle iidx old new author
      ctbl sec it hold hgc hfind hget hcont

/-- A document used to exercise the patch builder on its description. -/
def exampleDocPatch : Doc :=
  { repoType := "normal"
    description := "hello world"
    lecturers := [⟨"王老师", [⟨"great course", .missing⟩]⟩]
    sections := []
    courses := [] }

theorem patch_replaces_first_occurrence_isolated_witness :
    (Ref.locallyPatched Ref.description = true ∧ normText "world" ≠ "" ∧
      exampleDocPatch.fieldContent Ref.description = some "hello world" ∧
      pyContains (normText "hello world") (normText "world") = true) ∧
    ∃ doc', patchTomlByTarget exampleDocPatch Ref.description "world" "there" none =
        .ok doc' ∧
      doc'.fieldContent Ref.description =
        some (pyReplaceFirst (normText "hello world") (normText "world")
          (normText "there")) ∧
      (none = (none : Option Author) →
        doc'.fieldAuthor Ref.description = exampleDocPatch.fieldAuthor Ref.description) ∧
      doc'.skeleton = exampleDocPatch.skeleton ∧
      ∀ r', refCanon r' ≠ refCanon Ref.description →
        doc'.fieldContent r' = exampleDocPatch.fieldContent r' ∧
        doc'.fieldAuthor r' = exampleDocPatch.fieldAuthor r' :=
  ⟨⟨by decide, by decide, by decide, by decide⟩,
    patch_replaces_first_occurrence_isolated exampleDocPatch Ref.description
      "world" "there" none "hello world" (by decide) (by decide) (by decide)
      (by decide)⟩

/-! ## Serialization round-trip (C1)

The patch functions serialize through
`tomlkit.dumps(_doc_table(tomlkit.parse(base_toml))).rstrip() + "\n"`.
tomlkit is a style-preserving parser: dumping an unmodified document
reproduces the stored text, and `_doc_table` copies the top-level items
with their formatting.  That pipeline is modelled on a line-classified
TOML fragment: parsing splits the text into lines (terminators kept) and
validates each against a small grammar while keeping the raw text;
dumping concatenates the stored raw lines back; the repository's own
`.rstrip() + "\n"` is then applied on top. -/

/-- Line kinds of the modelled TOML fragment. -/
inductive LineKind where
  | blank
  | comment
  | header
  | keyval
deriving DecidableEq, Repr

/-- One source line, raw text (terminator included) plus its kind. -/
structure TomlLine where
  raw : List Char
  kind : LineKind
deriving DecidableEq, Repr

/-- Split into lines keeping each terminating newline with its line
(`acc` holds the current line reversed). -/
def splitAux (acc : List Char) : List Char → List (List Char)
  | [] => if acc.isEmpty then [] else [acc.reverse]
  | c :: rest =>
    if c = '\n' then (acc.reverse ++ ['\n']) :: splitAux [] rest
    else splitAux (c :: acc) rest

def splitLinesKeep (cs : List Char) : List (List Char) := splitAux [] cs

/-- The line content without its terminator (`"\n"` or `"\r\n"`). -/
def lineCore (raw : List Char) : List Char :=
  let r1 := if raw.getLast? = some '\n' then raw.dropLast else raw
  if r1.getLast? = some '\r' then r1.dropLast else r1

/-- Accept a line if it is blank, a comment, a `[table]`/`[[aot]]`
header, or a `key = value` pair. -/
def classifyLine (raw : List Char) : Option LineKind :=
  match pyStripList (lineCore raw) with
  | [] => some .blank
  | c :: rest =>
    if c = '#' then some .comment
    else if c = '[' then
      if (c :: rest).getLast? = some ']' then some .header else none
    else
      if (c :: rest).elem '=' ∧ pyStripList ((c :: rest).takeWhile (· ≠ '=')) ≠ [] then
        some .keyval
      else none

def parseLines : List (List Char) → Option (List TomlLine)
  | [] => some []
  | raw :: rest =>
    match classifyLine raw, parseLines rest with
    | some k, some ls => some (⟨raw, k⟩ :: ls)
    | _, _ => none

/-- The modelled `tomlkit.parse`. -/
def parseToml (text : String) : Option (List TomlLine) :=
  parseLines (splitLinesKeep text.data)

/-- The modelled `tomlkit.dumps` of the unmodified `_doc_table` copy. -/
def printToml (lines : List TomlLine) : String :=
  ⟨(lines.map (·.raw)).flatten⟩

/-- The serialization path used by every patch function:
`tomlkit.dumps(_doc_table(tomlkit.parse(text))).rstrip() + "\n"`. -/
def serializeRoundTrip (text : String) : Option String :=
  (parseToml text).map fun d => pyRstrip (printToml d) ++ "\n"

theorem splitAux_join (cs : List Char) :
    ∀ acc, (splitAux acc cs).flatten = acc.reverse ++ cs := by
  induction cs with
  | nil =>
    intro acc
    by_cases h : acc.isEmpty
    · simp [splitAux, h, List.isEmpty_iff.1 h]
    · simp [splitAux, h]
  | cons c rest ih =>
    intro acc
    by_cases hc : c = '\n'
    · subst hc
      simp [splitAux, ih []]
    · simp [splitAux, hc, ih (c :: acc)]

theorem parseLines_map_raw {ls : List (List Char)} {ds : List TomlLine}
    (h : parseLines ls = some ds) : ds.map (·.raw) = ls := by
  induction ls generalizing ds with
  | nil =>
    cases h
    rfl
  | cons raw rest ih =>
    unfold parseLines at h
    cases hc : classifyLine raw with
    | none => rw [hc] at h; cases h
    | some k =>
      rw [hc] at h
      cases hr : parseLines rest with
      | none => rw [hr] at h; cases h
      | some tail =>
        rw [hr] at h
        cases h
        simp [ih hr]

/-- Parsing is style-preserving: dumping the unmodified document
reproduces the input text exactly. -/
theorem printToml_parseToml {text : String} {d : List TomlLine}
    (h : parseToml text = some d) : printToml d = text := by
  unfold parseToml at h
  unfold printToml
  rw [parseLines_map_raw h]
  unfold splitLinesKeep
  rw [splitAux_join]
  cases text
  rfl

/-- C1 counterexample: the serialization path appends `.rstrip() + "\n"`,
so a document not ending in exactly one newline is not reproduced even
after line-ending normalization — `"a = 1"` (no trailing newline) comes
back as `"a = 1\n"`. -/
theorem roundtrip_not_line_ending_only :
    serializeRoundTrip "a = 1" = some "a = 1\n" ∧
    (⟨normNewlines ("a = 1\n").data⟩ : String) ≠ ⟨normNewlines ("a = 1").data⟩ := by
  decide

/-- C1 (amended): re-serializing a parsed document with zero patches
applied yields the input text with trailing whitespace trimmed and a
single terminating newline appended (line endings inside the text are
preserved); in particular the text is reproduced byte-identically
whenever it already ends in exactly one newline with no other trailing
whitespace. -/
theorem roundtrip_trailing_whitespace_normalized (T : String)
    (d : List TomlLine) (h : parseToml T = some d) :
    serializeRoundTrip T = some (pyRstrip T ++ "\n") ∧
    (pyRstrip T ++ "\n" = T → serializeRoundTrip T = some T) := by
  have h1 : serializeRoundTrip T = some (pyRstrip T ++ "\n") := by
    unfold serializeRoundTrip
    rw [h]
    simp [printToml_parseToml h]
  exact ⟨h1, fun he => by rw [h1, he]⟩

/-- The parsed form of `"a = 1\n"` in the line model. -/
def exampleParsedToml : List TomlLine :=
  [⟨['a', ' ', '=', ' ', '1', '\n'], .keyval⟩]

theorem roundtrip_trailing_whitespace_normalized_witness :
    parseToml "a = 1\n" = some exampleParsedToml ∧
    serializeRoundTrip "a = 1\n" = some (pyRstrip "a = 1\n" ++ "\n") ∧
    serializeRoundTrip "a = 1\n" = some "a = 1\n" := by
  refine ⟨by decide, ?_, ?_⟩
  · exact (roundtrip_trailing_whitespace_normalized "a = 1\n" exampleParsedToml
      (by decide)).1
  · exact (roundtrip_trailing_whitespace_normalized "a = 1\n" exampleParsedToml
      (by decide)).2 (by decide)

/-! ## Moderation oracle response handling (C7)

`moderation.py` parses the oracle's reply with `_try_parse_json` (strip,
optional code-fence removal, `json.loads`, then a first-`{`-to-last-`}`
extraction fallback) and treats anything unparsable — or a falsy result —
as rejection.  `json.loads` is modelled by a fuelled JSON parser
(numbers keep their raw lexeme; the fuel is generous enough for any
non-degenerate nesting). -/

inductive Json where
  | null
  | bool (b : Bool)
  | num (raw : String)
  | str (s : String)
  | arr (xs : List Json)
  | obj (kvs : List (String × Json))

def jsonIsWs (c : Char) : Bool :=
  c = ' ' || c = '\t' || c = '\n' || c = '\r'

def jsonSkipWs (cs : List Char) : List Char :=
  cs.dropWhile jsonIsWs

def isHexDigit (c : Char) : Bool :=
  c.isDigit || ('a' ≤ c && c ≤ 'f') || ('A' ≤ c && c ≤ 'F')

def hexVal (c : Char) : Nat :=
  if c.isDigit then c.toNat - '0'.toNat
  else if 'a' ≤ c && c ≤ 'f' then c.toNat - 'a'.toNat + 10
  else c.toNat - 'A'.toNat + 10

/-- Lex a JSON number (`-?(0|[1-9][0-9]*)(\.[0-9]+)?([eE][+-]?[0-9]+)?`),
returning the raw lexeme and the rest. -/
def lexNumber (cs : List Char) : Option (List Char × List Char) :=
  let (sign, r1) := match cs with
    | '-' :: r => (['-'], r)
    | _ => (([] : List Char), cs)
  let intPart := r1.takeWhile Char.isDigit
  let r2 := r1.drop intPart.length
  if intPart = [] then none
  else if intPart.length > 1 && intPart.headD '0' = '0' then none
  else
    let (fracPart, r3) := match r2 with
      | '.' :: r => ((['.'] ++ r.takeWhile Char.isDigit : List Char), r.drop (r.takeWhile Char.isDigit).length)
      | _ => (([] : List Char), r2)
    if fracPart = ['.'] then none
    else
      let (expPart, r4) := match r3 with
        | 'e' :: '+' :: r => ((['e', '+'] ++ r.takeWhile Char.isDigit : List Char), r.drop (r.takeWhile Char.isDigit).length)
        | 'e' :: '-' :: r => ((['e', '-'] ++ r.takeWhile Char.isDigit : List Char), r.drop (r.takeWhile Char.isDigit).length)
        | 'e' :: r => ((['e'] ++ r.takeWhile Char.isDigit : List Char), r.drop (r.takeWhile Char.isDigit).length)
        | 'E' :: '+' :: r => ((['E', '+'] ++ r.takeWhile Char.isDigit : List Char), r.drop (r.takeWhile Char.isDigit).length)
        | 'E' :: '-' :: r => ((['E', '-'] ++ r.takeWhile Char.isDigit : List Char), r.drop (r.takeWhile Char.isDigit).length)
        | 'E' :: r => ((['E'] ++ r.takeWhile Char.isDigit : List Char), r.drop (r.takeWhile Char.isDigit).length)
        | _ => (([] : List Char), r3)
      if expPart ≠ [] && ¬ (expPart.getLastD 'x').isDigit then none
      else some (sign ++ intPart ++ fracPart ++ expPart, r4)

/-- JSON string body after the opening quote: unescape, stop at the
closing quote. -/
def parseStrBody : Nat → List Char → Option (List Char × List Char)
  | 0, _ => none
  | _, [] => none
  | _ + 1, '"' :: rest => some ([], rest)
  | fuel + 1, '\\' :: e :: rest =>
    match e with
    | '"' => (parseStrBody fuel rest).map fun p => ('"' :: p.1, p.2)
    | '\\' => (parseStrBody fuel rest).map fun p => ('\\' :: p.1, p.2)
    | '/' => (parseStrBody fuel rest).map fun p => ('/' :: p.1, p.2)
    | 'b' => (parseStrBody fuel rest).map fun p => ('\x08' :: p.1, p.2)
    | 'f' => (parseStrBody fuel rest).map fun p => ('\x0c' :: p.1, p.2)
    | 'n' => (parseStrBody fuel rest).map fun p => ('\n' :: p.1, p.2)
    | 'r' => (parseStrBody fuel rest).map fun p => ('\r' :: p.1, p.2)
    | 't' => (parseStrBody fuel rest).map fun p => ('\t' :: p.1, p.2)
    | 'u' =>
      match rest with
      | h1 :: h2 :: h3 :: h4 :: rest2 =>
        if isHexDigit h1 && isHexDigit h2 && isHexDigit h3 && isHexDigit h4 then
          (parseStrBody fuel rest2).map fun p =>
            (Char.ofNat (((hexVal h1 * 16 + hexVal h2) * 16 + hexVal h3) * 16 + hexVal h4) :: p.1, p.2)
        else none
      | _ => none
    | _ => none
  | fuel + 1, c :: rest =>
    if c.toNat < 32 then none
    else (parseStrBody fuel rest).map fun p => (c :: p.1, p.2)

mutual

def parseValue : Nat → List Char → Option (Json × List Char)
  | 0, _ => none
  | fuel + 1, cs =>
    match jsonSkipWs cs with
    | 'n' :: 'u' :: 'l' :: 'l' :: rest => some (.null, rest)
    | 't' :: 'r' :: 'u' :: 'e' :: rest => some (.bool true, rest)
    | 'f' :: 'a' :: 'l' :: 's' :: 'e' :: rest => some (.bool false, rest)
    | '"' :: rest => (parseStrBody fuel rest).map fun p => (.str ⟨p.1⟩, p.2)
    | '[' :: rest =>
      (match jsonSkipWs rest with
       | ']' :: r => some (.arr [], r)
       | _ => (parseElements fuel rest).map fun p => (.arr p.1, p.2))
    | '{' :: rest =>
      (match jsonSkipWs rest with
       | '}' :: r => some (.obj [], r)
       | _ => (parseMembers fuel rest).map fun p => (.obj p.1, p.2))
    | other => (lexNumber other).map fun p => (.num ⟨p.1⟩, p.2)

def parseElements : Nat → List Char → Option (List Json × List Char)
  | 0, _ => none
  | fuel + 1, cs =>
    (parseValue fuel cs).bind fun p =>
      match jsonSkipWs p.2 with
      | ',' :: r2 => (parseElements fuel r2).map fun q => (p.1 :: q.1, q.2)
      | ']' :: r2 => some ([p.1], r2)
      | _ => none

def parseMembers : Nat → List Char → Option (List (String × Json) × List Char)
  | 0, _ => none
  | fuel + 1, cs =>
    match jsonSkipWs cs with
    | '"' :: rest =>
      (parseStrBody fuel rest).bind fun kp =>
        match jsonSkipWs kp.2 with
        | ':' :: r2 =>
          (parseValue fuel r2).bind fun vp =>
            match jsonSkipWs vp.2 with
            | ',' :: r4 => (parseMembers fuel r4).map fun q => ((⟨kp.1⟩, vp.1) :: q.1, q.2)
            | '}' :: r4 => some ([(⟨kp.1⟩, vp.1)], r4)
            | _ => none
        | _ => none
    | _ => none

end

/-- The modelled `json.loads`: a full-input parse. -/
def jsonParse (s : String) : Option Json :=
  match parseValue (2 * s.data.length + 2) s.data with
  | some (v, rest) => if jsonSkipWs rest = [] then some v else none
  | none => none

/-- The code-fence stripping step of `_try_parse_json` (for an `s` that
starts with three backticks): drop the fence, an optional
case-insensitive `json` tag and following whitespace, then drop a
trailing fence with its surrounding whitespace if present, then strip. -/
def stripFencesCore (s : String) : String :=
  let s1 := s.data.drop 3
  let s2 := if (s1.take 4).map Char.toLower = ['j', 's', 'o', 'n'] then s1.drop 4 else s1
  let s3 := s2.dropWhile pyIsSpace
  let r := s3.reverse
  let r1 := r.dropWhile pyIsSpace
  let s4 :=
    if r1.take 3 = ['`', '`', '`'] then ((r1.drop 3).dropWhile pyIsSpace).reverse
    else s3
  pyStrip ⟨s4⟩

/-- The `re.search(r"\x7b[\s\S]*\x7d", s)` fallback: the span from the
first opening brace to the last closing brace, if properly ordered. -/
def extractBraces (s : String) : Option String :=
  let l := s.data
  match l.findIdx? (· = '{'), (l.reverse.findIdx? (· = '}')) with
  | some i, some jr =>
    let j := l.length - 1 - jr
    if i < j then some ⟨(l.drop i).take (j - i + 1)⟩ else none
  | _, _ => none

/-- `_try_parse_json` from moderation.py. -/
def tryParseJson (content : String) : Option (List (String × Json)) :=
  let s := pyStrip content
  if s = "" then none
  else
    let s := if "```".data.isPrefixOf s.data then stripFencesCore s else s
    match jsonParse s with
    | some (.obj kvs) => some kvs
    | some _ => none
    | none =>
      match extractBraces s with
      | none => none
      | some sub =>
        match jsonParse sub with
        | some (.obj kvs) => some kvs
        | _ => none

/-- `dict.get` on the parsed object (`json.loads` keeps the last
occurrence of a duplicated key). -/
def jsonGet (kvs : List (String × Json)) (k : String) : Option Json :=
  (kvs.reverse.find? fun p => p.1 = k).map (·.2)

/-- Python truthiness of a decoded JSON value (`bool(x)`); for numbers,
zero iff the mantissa has no non-zero digit. -/
def jsonTruthy : Json → Bool
  | .null => false
  | .bool b => b
  | .num raw => (raw.data.takeWhile fun c => c ≠ 'e' ∧ c ≠ 'E').any fun c =>
      c.isDigit && c ≠ '0'
  | .str s => s ≠ ""
  | .arr xs => !xs.isEmpty
  | .obj kvs => !kvs.isEmpty

mutual

/-- Python `repr` of a decoded JSON value, as used by `str(...)` on
non-string values (strings render without quotes through `str`). -/
def jsonRepr : Json → String
  | .null => "None"
  | .bool true => "True"
  | .bool false => "False"
  | .num raw => raw
  | .str s => "'" ++ s ++ "'"
  | .arr xs => "[" ++ jsonReprElems xs ++ "]"
  | .obj kvs => "\x7b" ++ jsonReprMembers kvs ++ "\x7d"

def jsonReprElems : List Json → String
  | [] => ""
  | [x] => jsonRepr x
  | x :: xs => jsonRepr x ++ ", " ++ jsonReprElems xs

def jsonReprMembers : List (String × Json) → String
  | [] => ""
  | [(k, v)] => "'" ++ k ++ "': " ++ jsonRepr v
  | (k, v) :: kvs => "'" ++ k ++ "': " ++ jsonRepr v ++ ", " ++ jsonReprMembers kvs

end

/-- Python `str(...)` on a decoded JSON value. -/
def pyStrJson : Json → String
  | .str s => s
  | v => jsonRepr v

structure ModerationResult where
  approved : Bool
  reason : String
deriving DecidableEq, Repr

/-- The response-handling tail of `moderate_toml` (the oracle reply
`content` is the awaited model output): unparsable or falsy parse
results reject with the generic reason; otherwise `approved` is the
truthiness of the `approved` key (defaulting to `False`) and `reason`
the stringified, truncated `reason` key. -/
def moderateOfContent (content : String) : ModerationResult :=
  match tryParseJson content with
  | none => ⟨false, "审核模型未返回可解析 JSON，请稍后重试或联系管理员"⟩
  | some kvs =>
    if kvs.isEmpty then ⟨false, "审核模型未返回可解析 JSON，请稍后重试或联系管理员"⟩
    else
      let approved := match jsonGet kvs "approved" with
        | none => false
        | some v => jsonTruthy v
      let reason0 := pyTake 200 (match jsonGet kvs "reason" with
        | none => ""
        | some v => pyStrJson v)
      ⟨approved, if reason0 = "" then "未提供原因" else reason0⟩

/-- C7: oracle output that yields no parsable JSON object (empty output
included) produces `approved = false` with the generic reason, and a
parsed object lacking the `approved` key also produces
`approved = false` — ambiguous oracle output never defaults to
approval. -/
theorem moderation_never_default_approves :
    (∀ content, tryParseJson content = none →
      moderateOfContent content =
        ⟨false, "审核模型未返回可解析 JSON，请稍后重试或联系管理员"⟩) ∧
    (∀ content kvs, tryParseJson content = some kvs →
      jsonGet kvs "approved" = none →
      (moderateOfContent content).approved = false) := by
  constructor
  · intro content h
    unfold moderateOfContent
    rw [h]
  · intro content kvs h hk
    unfold moderateOfContent
    rw [h]
    dsimp only
    by_cases he : kvs.isEmpty
    · rw [if_pos he]
    · rw [if_neg he]
      dsimp only
      rw [hk]

theorem moderation_never_default_approves_witness :
    (tryParseJson "" = none ∧
      moderateOfContent "" =
        ⟨false, "审核模型未返回可解析 JSON，请稍后重试或联系管理员"⟩) ∧
    (tryParseJson "\x7b\"reason\": \"ok\"\x7d" =
        some [("reason", Json.str "ok")] ∧
      jsonGet [("reason", Json.str "ok")] "approved" = none ∧
      (moderateOfContent "\x7b\"reason\": \"ok\"\x7d").approved = false) :=
  ⟨⟨rfl, moderation_never_default_approves.1 "" rfl⟩,
    ⟨rfl, rfl, moderation_never_default_approves.2 "\x7b\"reason\": \"ok\"\x7d"
      [("reason", Json.str "ok")] rfl rfl⟩⟩

/-! ## Session store and handler transitions (C8, C9, C10)

Each relevant branch of the `matcher` handler becomes a pure transition
`Pending → inputs → Option Pending × String`: the `Option Pending` is the
value stored back under the session key (`none` models
`_PENDING.pop(...)`), the `String` is the reply passed to
`matcher.finish`/`send`.  Results of awaited external calls are passed in
as arguments, with TOML payloads carried as parsed documents.  The
modelled modify flow's targets are locator candidates; the append-type
targets (created by the `/pr addcourse`, `/pr addreview`, `/pr add`
commands) take the separate append path of the `build_patch` branch and
are outside these claims. -/

/-- The used fields of `prserver_client.SubmitResult`. -/
structure SubmitRes where
  ok : Bool
  message : String
  doc : Option Doc := none
  prUrl : Option String := none
  requestId : Option String := none
deriving DecidableEq, Repr

/-- The `Pending` session dataclass. -/
structure Pending where
  repoName : String := ""
  courseCode : String := ""
  courseName : String := ""
  repoType : String := ""
  mode : String := ""
  sectionTitle : String := ""
  itemIndex : Int := -1
  oldParagraph : String := ""
  newParagraph : String := ""
  candidates : List Candidate := []
  target : Option Ref := none
  baseDoc : Option Doc := none
  wantAttribution : Option Bool := none
  authorName : String := ""
  authorLink : String := ""
  patchedDoc : Option Doc := none
deriving DecidableEq, Repr

/-- Python `a or b` on strings (first truthy operand). -/
def pyOr (a b : String) : String :=
  if a = "" then b else a

/-- Python `int(text)` on an already-stripped reply (ASCII numerals). -/
def parsePyInt (s : String) : Option Int :=
  match s.data with
  | '-' :: ds =>
    if ds ≠ [] ∧ ds.all Char.isDigit then
      some (-(ds.foldl (fun a c => a * 10 + (c.toNat - '0'.toNat) : Nat → Char → Nat) 0 : Nat))
    else none
  | '+' :: ds =>
    if ds ≠ [] ∧ ds.all Char.isDigit then
      some ((ds.foldl (fun a c => a * 10 + (c.toNat - '0'.toNat)) 0 : Nat) : Int)
    else none
  | ds =>
    if ds ≠ [] ∧ ds.all Char.isDigit then
      some ((ds.foldl (fun a c => a * 10 + (c.toNat - '0'.toNat)) 0 : Nat) : Int)
    else none

/-- `str(c.get("section") or "")` on a candidate dict. -/
def refSectionField : Ref → String
  | .sectionItem t _ => t
  | .courseSectionItem _ _ t _ => t
  | _ => ""

/-- `int(c.get("index") or -1)` on a candidate dict (a stored index `0`
is falsy in Python, so it also yields `-1`). -/
def refIndexField : Ref → Int
  | .sectionItem _ i => if i = 0 then -1 else (i : Int)
  | .courseSectionItem _ _ _ i => if i = 0 then -1 else (i : Int)
  | _ => -1

/-- The single-candidate reply of the `modify_old` branch. -/
def singleHitReply (c : Candidate) : String :=
  match c.ref with
  | .sectionItem t i =>
    "已定位到：章节《" ++ t ++ "》第 " ++ toString (i + 1) ++ " 条：" ++ c.preview ++
      "\n请下一条消息发送修改后的完整正文。"
  | .description =>
    "已定位到：description\n预览：" ++ c.preview ++ "\n请下一条消息发送修改后的完整正文。"
  | .lecturerReview ln ridx =>
    "已定位到：lecturers《" ++ ln ++ "》评价#" ++ toString (ridx + 1) ++ "\n预览：" ++
      c.preview ++ "\n请下一条消息发送修改后的完整正文。"
  | .courseSectionItem _ cn st i =>
    "已定位到：子课程《" ++ cn ++ "》章节《" ++ st ++ "》第 " ++ toString (i + 1) ++
      " 条\n预览：" ++ c.preview ++ "\n请下一条消息发送修改后的完整正文。"
  | .courseTeacherReview _ cn tn ridx =>
    "已定位到：子课程《" ++ cn ++ "》教师《" ++ tn ++ "》评价#" ++ toString (ridx + 1) ++
      "\n预览：" ++ c.preview ++ "\n请下一条消息发送修改后的完整正文。"

/-- One numbered line of the disambiguation prompt. -/
def candidateLine (i : Nat) (c : Candidate) : String :=
  match c.ref with
  | .sectionItem t idx =>
    toString i ++ ") [sections] 《" ++ t ++ "》#" ++ toString (idx + 1) ++ " " ++ c.preview
  | .description => toString i ++ ") [description] " ++ c.preview
  | .lecturerReview ln ridx =>
    toString i ++ ") [lecturers] 《" ++ ln ++ "》评价#" ++ toString (ridx + 1) ++ " " ++ c.preview
  | .courseSectionItem _ cn st idx =>
    toString i ++ ") [courses.sections] 《" ++ cn ++ "》/《" ++ st ++ "》#" ++
      toString (idx + 1) ++ " " ++ c.preview
  | .courseTeacherReview _ cn tn ridx =>
    toString i ++ ") [courses.teachers] 《" ++ cn ++ "》/《" ++ tn ++ "》评价#" ++
      toString (ridx + 1) ++ " " ++ c.preview

/-- The multiple-candidates disambiguation prompt (first eight shown). -/
def multiReply (candidates : List Candidate) : String :=
  String.intercalate "\n"
    (["找到多个匹配，请回复序号选择："] ++
      ((candidates.take 8).enum.map fun p => candidateLine (p.1 + 1) p.2) ++
      (if candidates.length > 8 then
        ["（仅展示前 8 个，共 " ++ toString candidates.length ++
          " 个匹配；建议提供更长原文缩小范围）"]
       else []))

/-- The `modify_old` branch: receive the old paragraph, fetch the TOML
(`r` is the awaited `get_course_toml` result), locate, and branch on the
number of candidates. -/
def modifyOldStep (pending : Pending) (text : String) (r : SubmitRes) :
    Option Pending × String :=
  let old := pyStrip text
  if old.data.length < 10 then
    (some pending, "原段落太短，建议复制更长一点的原文再试")
  else
    let repoKey := pyStrip (pyOr pending.repoName pending.courseCode)
    if repoKey = "" then
      (none, "缺少仓库标识（repo_name/course_code），请重新 /pr start")
    else if ¬r.ok ∨ r.doc = none then
      (none, "拉取 TOML 失败：" ++ r.message)
    else
      let doc := r.doc.getD ⟨"", "", [], [], []⟩
      let candidates := findParagraphCandidates doc old
      if candidates = [] then
        (some pending, "未定位到匹配条目。请确认复制的是仓库里的原文，或提供更长的片段。")
      else if candidates.length = 1 then
        let c := candidates.headD ⟨.description, ""⟩
        (some { repoName := pending.repoName
                courseCode := pending.courseCode
                courseName := pending.courseName
                repoType := pending.repoType
                mode := "modify_new"
                sectionTitle := refSectionField c.ref
                itemIndex := refIndexField c.ref
                oldParagraph := old
                target := some c.ref
                baseDoc := r.doc },
         singleHitReply c)
      else
        (some { repoName := pending.repoName
                courseCode := pending.courseCode
                courseName := pending.courseName
                repoType := pending.repoType
                mode := "modify_choose"
                candidates := candidates.take 8
                oldParagraph := old
                baseDoc := r.doc },
         multiReply candidates)

/-- The post-pick reply of the `modify_choose` branch. -/
def chooseReply (c : Candidate) : String :=
  match c.ref with
  | .sectionItem t i =>
    "已选择：章节《" ++ t ++ "》第 " ++ toString (i + 1) ++ " 条：" ++ c.preview ++
      "\n请下一条消息发送修改后的完整正文。"
  | .description => "已选择：description\n请下一条消息发送修改后的完整正文。"
  | .lecturerReview ln ridx =>
    "已选择：lecturers《" ++ ln ++ "》评价#" ++ toString (ridx + 1) ++
      "\n请下一条消息发送修改后的完整正文。"
  | .courseSectionItem _ cn st i =>
    "已选择：子课程《" ++ cn ++ "》章节《" ++ st ++ "》第 " ++ toString (i + 1) ++
      " 条\n请下一条消息发送修改后的完整正文。"
  | .courseTeacherReview _ cn tn ridx =>
    "已选择：子课程《" ++ cn ++ "》教师《" ++ tn ++ "》评价#" ++ toString (ridx + 1) ++
      "\n请下一条消息发送修改后的完整正文。"

/-- The `modify_choose` branch: numeric disambiguation pick. -/
def modifyChooseStep (pending : Pending) (text : String) :
    Option Pending × String :=
  if pending.candidates = [] then (none, "状态异常：请重新 /pr modify")
  else
    match parsePyInt (pyStrip text) with
    | none => (some pending, "请回复数字序号（例如 1）")
    | some pick =>
      if pick ≤ 0 ∨ pick > (pending.candidates.length : Int) then
        (some pending, "序号超出范围")
      else
        let c := pending.candidates.getD (pick.toNat - 1) ⟨.description, ""⟩
        (some { repoName := pending.repoName
                courseCode := pending.courseCode
                courseName := pending.courseName
                repoType := pending.repoType
                mode := "modify_new"
                sectionTitle := refSectionField c.ref
                itemIndex := refIndexField c.ref
                oldParagraph := pending.oldParagraph
                target := some c.ref
                baseDoc := pending.baseDoc },
         chooseReply c)

/-- `preview[:199] + "…"` truncation over 200 characters. -/
def trunc200 (s : String) : String :=
  if s.data.length > 200 then pyTake 199 s ++ "…" else s

/-- The confirmation prompt composed after a successful dry-run patch. -/
def confirmPrompt (info oldPv newPv : String) : String :=
  String.intercalate "\n"
    ([pyStrip ("即将提交：" ++ info)] ++
      (if oldPv ≠ "" then ["\n原段落（截断）：\n" ++ oldPv] else []) ++
      ["\n新段落（截断）：\n" ++ newPv] ++
      ["\n回复：确认 / 取消"])

/-- The confirmation prompt composed after a successful local patch. -/
def localPatchPrompt (oldPv newPv : String) : String :=
  String.intercalate "\n"
    (["即将提交：定位修改"] ++
      (if oldPv ≠ "" then ["\n原段落（截断）：\n" ++ oldPv] else []) ++
      ["\n新段落（截断）：\n" ++ newPv] ++
      ["\n回复：确认 / 取消"])

/-- The shared tail of the `build_patch` branch for ops routed through
`submit_ops_dry_run` (whose awaited result is `patched`): pop on
failure, else stage the patched document in a `confirm`-mode record. -/
def dryRunTail (pending : Pending) (patched : SubmitRes) :
    Option Pending × String :=
  if ¬patched.ok ∨ patched.doc = none then
    (none, "生成失败：" ++ patched.message)
  else
    let info :=
      (if pending.sectionTitle ≠ "" then "章节《" ++ pending.sectionTitle ++ "》" else "") ++
      (if pending.itemIndex ≥ 0 then " 第 " ++ toString (pending.itemIndex + 1) ++ " 条" else "")
    (some { repoName := pending.repoName
            courseCode := pending.courseCode
            courseName := pending.courseName
            repoType := pending.repoType
            mode := "confirm"
            sectionTitle := pending.sectionTitle
            itemIndex := pending.itemIndex
            oldParagraph := pending.oldParagraph
            newParagraph := pending.newParagraph
            wantAttribution := pending.wantAttribution
            authorName := pending.authorName
            authorLink := pending.authorLink
            patchedDoc := patched.doc
            target := pending.target
            baseDoc := pending.baseDoc },
     confirmPrompt info (trunc200 (pyStrip pending.oldParagraph))
       (trunc200 (pyStrip pending.newParagraph)))

/-- The `build_patch` branch for the modify/add flows (`ym` is
`_year_month()`; `dryRun` the awaited `submit_ops_dry_run` result used by
the ops paths).  A located modify with a non-`section_item` target is
patched locally: on failure the handler replies without touching the
store, on success it stores a record that — as in the code — still
carries `mode="build_patch"` and `want_attribution=True`. -/
def buildPatchStep (ym : String) (pending : Pending) (dryRun : SubmitRes) :
    Option Pending × String :=
  let author : Option Author :=
    if pending.wantAttribution = some true then
      some ⟨pending.authorName, pending.authorLink, ym⟩
    else none
  match pending.target with
  | some tgt =>
    if pending.oldParagraph ≠ "" then
      if tgt.locallyPatched = false then dryRunTail pending dryRun
      else if pending.baseDoc = none then
        (none, "状态异常：缺少 base TOML，请重新 /pr modify")
      else
        match patchTomlByTarget (pending.baseDoc.getD ⟨"", "", [], [], []⟩) tgt
            pending.oldParagraph pending.newParagraph author with
        | .error e => (some pending, "生成失败：" ++ e)
        | .ok _ =>
          (some { repoName := pending.repoName
                  courseCode := pending.courseCode
                  courseName := pending.courseName
                  repoType := pending.repoType
                  mode := "build_patch"
                  sectionTitle := pending.sectionTitle
                  itemIndex := pending.itemIndex
                  oldParagraph := pending.oldParagraph
                  newParagraph := pending.newParagraph
                  target := pending.target
                  baseDoc := pending.baseDoc
                  wantAttribution := some true
                  authorName := pending.authorName
                  authorLink := pending.authorLink },
           localPatchPrompt (trunc200 (pyStrip pending.oldParagraph))
             (trunc200 (pyStrip pending.newParagraph)))
    else dryRunTail pending dryRun
  | none => dryRunTail pending dryRun

/-- The `confirm` branch: cancellation keywords pop, anything else but a
confirmation keyword re-prompts; on confirmation the moderation result
and then the `ensure_pr` result (`modRes`, `ensure`) decide the reply,
and the record is popped in every one of those outcomes. -/
def confirmStep (pending : Pending) (text : String)
    (modRes : ModerationResult) (ensure : SubmitRes) :
    Option Pending × String :=
  let ans := pyLower (pyStrip text)
  if ["取消", "cancel", "c", "n", "no"].contains ans then
    (none, "已取消本次修改")
  else if ¬(["确认", "confirm", "y", "yes", "是"].contains ans) then
    (some pending, "请回复：确认 或 取消")
  else if pending.patchedDoc = none then
    (none, "状态异常：缺少 patched TOML，请重新开始")
  else if ¬modRes.approved then
    (none, "审核未通过：" ++ modRes.reason)
  else if ¬ensure.ok then
    (none, "提交失败：" ++ ensure.message)
  else
    match ensure.prUrl with
    | some u => (none, "已创建/更新 PR：" ++ u)
    | none =>
      match ensure.requestId with
      | some rid => (none, "仓库不存在，已进入 pending：request_id=" ++ rid)
      | none => (none, "提交完成：" ++ ensure.message)

/-- C8 counterexample: a publication (`ensure_pr`) failure in the
`confirm` branch pops the session record instead of preserving it at its
pre-call state — the user must restart. -/
def examplePendingConfirm : Pending :=
  { repoName := "AUTO1001"
    courseCode := "AUTO1001"
    courseName := "自动化导论"
    repoType := "normal"
    mode := "confirm"
    newParagraph := "new text"
    patchedDoc := some exampleDocPatch }

theorem publish_failure_destroys_session :
    (confirmStep examplePendingConfirm "确认" ⟨true, "ok"⟩
        ⟨false, "boom", none, none, none⟩).1 = none ∧
    (confirmStep examplePendingConfirm "确认" ⟨true, "ok"⟩
        ⟨false, "boom", none, none, none⟩).2 = "提交失败：boom" ∧
    (confirmStep examplePendingConfirm "确认" ⟨true, "ok"⟩
        ⟨false, "boom", none, none, none⟩).1 ≠ some examplePendingConfirm := by
  decide

/-- C8 (amended): every modelled external-service failure other than
moderation rejection — course lookup during `modify_old`, dry-run patch
generation, publication returning not-ok — is reported with the raw
failure reason and pops the session record, so the user must restart the
flow rather than resume it. -/
theorem external_failure_reports_and_destroys :
    (∀ (pending : Pending) (text : String) (r : SubmitRes),
      (pyStrip text).data.length ≥ 10 →
      pyStrip (pyOr pending.repoName pending.courseCode) ≠ "" →
      r.ok = false →
      modifyOldStep pending text r = (none, "拉取 TOML 失败：" ++ r.message)) ∧
    (∀ (ym : String) (pending : Pending) (dryRun : SubmitRes)
      (t : String) (i : Nat),
      pending.target = some (Ref.sectionItem t i) →
      dryRun.ok = false →
      buildPatchStep ym pending dryRun = (none, "生成失败：" ++ dryRun.message)) ∧
    (∀ (pending : Pending) (modRes : ModerationResult) (ensure : SubmitRes),
      pending.patchedDoc ≠ none → modRes.approved = true → ensure.ok = false →
      confirmStep pending "确认" modRes ensure =
        (none, "提交失败：" ++ ensure.message)) := by
  refine ⟨?_, ?_, ?_⟩
  · intro pending text r hlen hkey hok
    unfold modifyOldStep
    rw [if_neg (by omega), if_neg hkey, if_pos (Or.inl (by simp [hok]))]
  · intro ym pending dryRun t i htgt hok
    unfold buildPatchStep
    rw [htgt]
    dsimp only
    by_cases hold : pending.oldParagraph ≠ ""
    · rw [if_pos hold, if_pos (by simp [Ref.locallyPatched])]
      unfold dryRunTail
      rw [if_pos (Or.inl (by simp [hok]))]
    · rw [if_neg hold]
      unfold dryRunTail
      rw [if_pos (Or.inl (by simp [hok]))]
  · intro pending modRes ensure hpd happ hok
    unfold confirmStep
    rw [if_neg (by decide), if_neg (by decide), if_neg hpd,
      if_neg (by simp [happ]), if_pos (by simp [hok])]

def examplePendingModify : Pending :=
  { repoName := "AUTO1001"
    courseCode := "AUTO1001"
    courseName := "自动化导论"
    repoType := "normal"
    mode := "modify_old" }

def examplePendingBuildOps : Pending :=
  { repoName := "AUTO1001"
    courseCode := "AUTO1001"
    courseName := "自动化导论"
    repoType := "normal"
    mode := "build_patch"
    sectionTitle := "考试"
    itemIndex := 1
    oldParagraph := "0123456789"
    newParagraph := "new text"
    target := some (Ref.sectionItem "考试" 1)
    wantAttribution := some false }

theorem external_failure_reports_and_destroys_witness :
    ((pyStrip "0123456789").data.length ≥ 10 ∧
      pyStrip (pyOr examplePendingModify.repoName examplePendingModify.courseCode) ≠ "" ∧
      modifyOldStep examplePendingModify "0123456789" ⟨false, "down", none, none, none⟩ =
        (none, "拉取 TOML 失败：" ++ "down")) ∧
    (examplePendingBuildOps.target = some (Ref.sectionItem "考试" 1) ∧
      buildPatchStep "2026-10" examplePendingBuildOps ⟨false, "bad", none, none, none⟩ =
        (none, "生成失败：" ++ "bad")) ∧
    (examplePendingConfirm.patchedDoc ≠ none ∧
      confirmStep examplePendingConfirm "确认" ⟨true, "ok"⟩
          ⟨false, "boom", none, none, none⟩ =
        (none, "提交失败：" ++ "boom")) :=
  ⟨⟨by decide, by decide,
      external_failure_reports_and_destroys.1 examplePendingModify "0123456789"
        ⟨false, "down", none, none, none⟩ (by decide) (by decide) rfl⟩,
    ⟨rfl,
      external_failure_reports_and_destroys.2.1 "2026-10" examplePendingBuildOps
        ⟨false, "bad", none, none, none⟩ "考试" 1 rfl rfl⟩,
    ⟨by decide,
      external_failure_reports_and_destroys.2.2 examplePendingConfirm
        ⟨true, "ok"⟩ ⟨false, "boom", none, none, none⟩ (by decide) rfl rfl⟩⟩

/-- C9: when the patch builder reports the located old paragraph is no
longer present (stale content), the `build_patch` branch of the located
modify flow replies with the failure but leaves the session record in
the store unchanged (still in `build_patch` mode) — unlike the sibling
append branch, and unlike §7 of the spec, it does not destroy the
session, so the user is not returned to a restartable state. -/
def examplePendingBuildStale : Pending :=
  { repoName := "AUTO1001"
    courseCode := "AUTO1001"
    courseName := "自动化导论"
    repoType := "normal"
    mode := "build_patch"
    oldParagraph := "totally absent paragraph"
    newParagraph := "replacement text"
    target := some Ref.description
    baseDoc := some exampleDocPatch
    wantAttribution := some false }

theorem stale_patch_keeps_session_record :
    buildPatchStep "2026-10" examplePendingBuildStale ⟨false, "unused", none, none, none⟩ =
      (some examplePendingBuildStale,
        "生成失败：" ++ "原段落未在 description 中找到（内容已变化？）") := by
  decide

/-- C10: when the locator finds more than eight candidates, the session
stores only the first eight, and a numeric pick is accepted only when it
lies between 1 and the number of stored candidates — so a match beyond
the eighth can never be selected. -/
theorem disambiguation_caps_candidates_at_eight :
    (∀ (pending : Pending) (text : String) (r : SubmitRes) (doc : Doc)
        (p' : Pending) (reply : String),
      r.ok = true → r.doc = some doc →
      (pyStrip text).data.length ≥ 10 →
      pyStrip (pyOr pending.repoName pending.courseCode) ≠ "" →
      (findParagraphCandidates doc (pyStrip text)).length > 8 →
      modifyOldStep pending text r = (some p', reply) →
      p'.candidates = (findParagraphCandidates doc (pyStrip text)).take 8 ∧
        p'.candidates.length = 8) ∧
    (∀ (pending : Pending) (text : String) (p' : Pending) (reply : String),
      pending.mode = "modify_choose" →
      modifyChooseStep pending text = (some p', reply) →
      p'.mode = "modify_new" →
      ∃ k : Int, parsePyInt (pyStrip text) = some k ∧ 1 ≤ k ∧
        k ≤ (pending.candidates.length : Int) ∧
        p'.target = some ((pending.candidates.getD (k.toNat - 1)
          ⟨.description, ""⟩).ref)) := by
  constructor
  · intro pending text r doc p' reply hok hdoc hlen hkey hgt h
    unfold modifyOldStep at h
    rw [if_neg (show ¬(pyStrip text).data.length < 10 by omega)] at h
    rw [if_neg hkey] at h
    rw [if_neg (by simp [hok, hdoc])] at h
    rw [hdoc] at h
    simp only [Option.getD_some] at h
    rw [if_neg (show ¬findParagraphCandidates doc (pyStrip text) = [] by
      intro hnil
      rw [hnil] at hgt
      simp at hgt)] at h
    rw [if_neg (show ¬(findParagraphCandidates doc (pyStrip text)).length = 1 by
      omega)] at h
    rw [Prod.mk.injEq] at h
    obtain ⟨hp, _⟩ := h
    have hps := Option.some.inj hp
    subst hps
    refine ⟨rfl, ?_⟩
    simp only [List.length_take]
    omega
  · intro pending text p' reply hmode h hmode'
    unfold modifyChooseStep at h
    by_cases hc : pending.candidates = []
    · rw [if_pos hc] at h
      rw [Prod.mk.injEq] at h
      cases h.1
    · rw [if_neg hc] at h
      cases hpick : parsePyInt (pyStrip text) with
      | none =>
        rw [hpick] at h
        dsimp only at h
        rw [Prod.mk.injEq] at h
        obtain ⟨hp, _⟩ := h
        have hps := Option.some.inj hp
        subst hps
        rw [hmode] at hmode'
        exact absurd hmode' (by decide)
      | some pick =>
        rw [hpick] at h
        dsimp only at h
        by_cases hrange : pick ≤ 0 ∨ pick > (pending.candidates.length : Int)
        · rw [if_pos hrange] at h
          rw [Prod.mk.injEq] at h
          obtain ⟨hp, _⟩ := h
          have hps := Option.some.inj hp
          subst hps
          rw [hmode] at hmode'
          exact absurd hmode' (by decide)
        · rw [if_neg hrange] at h
          simp only [not_or, not_lt, not_le] at hrange
          rw [Prod.mk.injEq] at h
          obtain ⟨hp, _⟩ := h
          have hps := Option.some.inj hp
          subst hps
          exact ⟨pick, rfl, by omega, by omega, rfl⟩

def exampleDocMany : Doc :=
  { repoType := "normal"
    description := ""
    lecturers := [⟨"张老师",
      [⟨"0123456789 a", .missing⟩, ⟨"0123456789 b", .missing⟩,
       ⟨"0123456789 c", .missing⟩, ⟨"0123456789 d", .missing⟩,
       ⟨"0123456789 e", .missing⟩, ⟨"0123456789 f", .missing⟩,
       ⟨"0123456789 g", .missing⟩, ⟨"0123456789 h", .missing⟩,
       ⟨"0123456789 i", .missing⟩]⟩]
    sections := []
    courses := [] }

def exampleLookupMany : SubmitRes :=
  ⟨true, "ok", some exampleDocMany, none, none⟩

def examplePendingChoose : Pending :=
  { repoName := "AUTO1001"
    courseCode := "AUTO1001"
    courseName := "自动化导论"
    repoType := "normal"
    mode := "modify_choose"
    candidates := (findParagraphCandidates exampleDocMany "0123456789").take 8
    oldParagraph := "0123456789"
    baseDoc := some exampleDocMany }

def exampleChosen : Pending :=
  { repoName := "AUTO1001"
    courseCode := "AUTO1001"
    courseName := "自动化导论"
    repoType := "normal"
    mode := "modify_new"
    sectionTitle := ""
    itemIndex := -1
    oldParagraph := "0123456789"
    target := some (Ref.lecturerReview "张老师" 1)
    baseDoc := some exampleDocMany }

set_option maxRecDepth 40000 in
theorem disambiguation_caps_candidates_at_eight_witness :
    (exampleLookupMany.ok = true ∧ exampleLookupMany.doc = some exampleDocMany ∧
      (pyStrip "0123456789").data.length ≥ 10 ∧
      pyStrip (pyOr examplePendingModify.repoName examplePendingModify.courseCode) ≠ "" ∧
      (findParagraphCandidates exampleDocMany (pyStrip "0123456789")).length > 8 ∧
      modifyOldStep examplePendingModify "0123456789" exampleLookupMany =
        (some examplePendingChoose,
          multiReply (findParagraphCandidates exampleDocMany (pyStrip "0123456789"))) ∧
      examplePendingChoose.candidates =
        (findParagraphCandidates exampleDocMany (pyStrip "0123456789")).take 8 ∧
      examplePendingChoose.candidates.length = 8) ∧
    (examplePendingChoose.mode = "modify_choose" ∧
      modifyChooseStep examplePendingChoose "2" =
        (some exampleChosen,
          chooseReply ⟨Ref.lecturerReview "张老师" 1, "0123456789 b"⟩) ∧
      exampleChosen.mode = "modify_new" ∧
      ∃ k : Int, parsePyInt (pyStrip "2") = some k ∧ 1 ≤ k ∧
        k ≤ (examplePendingChoose.candidates.length : Int) ∧
        exampleChosen.target = some ((examplePendingChoose.candidates.getD
          (k.toNat - 1) ⟨.description, ""⟩).ref)) := by
  have hpart1 := (disambiguation_caps_candidates_at_eight).1 examplePendingModify
    "0123456789" exampleLookupMany exampleDocMany examplePendingChoose
    (multiReply (findParagraphCandidates exampleDocMany (pyStrip "0123456789")))
    rfl rfl (by decide) (by decide) (by decide) (by decide)
  have hpart2 := (disambiguation_caps_candidates_at_eight).2 examplePendingChoose
    "2" exampleChosen (chooseReply ⟨Ref.lecturerReview "张老师" 1, "0123456789 b"⟩)
    rfl (by decide) rfl
  exact ⟨⟨rfl, rfl, by decide, by decide, by decide, by decide, hpart1.1, hpart1.2⟩,
    ⟨rfl, by decide, rfl, hpart2⟩⟩
